import Mathlib

/-!
# MyLinQ (`trisolaris` namespace of `linq.h`): cursors and the `iteratorable` wrapper

A shallow embedding of the iterator classes of `linq.h` (`forward_iterator`,
`storage_iterator`, `empty_iterator`, `select_iterator`, `where_iterator`), of
the terminal operations of `iteratorable` and of the entry points
`from_values` / `from_value`.

* Every C++ loop is a structurally recursive function on a step budget (`fuel`);
  a loop that does not finish within the budget yields `Res.timeout`.
* A thrown `linq_exception` is `Res.throw`; dereferencing or advancing a
  standard-library iterator at or past the end of its container is
  `Res.undefined`.
* The template parameter `TIterator` is a type `I` with an instance of the
  class `Iterator`, which lists the operators the templates use
  (`++`, unary `*`, `==`, `!=`).
* The typedef `TElement` of `iteratorable<TIterator>` is `TIterator` stripped
  of reference and cv-qualifiers, that is the cursor type: `TElement I` is `I`.
  The members `first`, `first_or_default`, `last`, `last_of_default`, `at`,
  `operator[]` and `to_vector` return (or store) `*itr` converted to
  `TElement`; the conversion is their parameter `convert`. They are well-formed
  only for a cursor type to which the type of `*itr` converts implicitly, such
  as `self_cursor`, whose `operator*` returns the cursor itself.
* `walk` is the list of elements that a range-based `for` over a sequence
  reads (`for(auto i : s)`, as in `main.cpp`); it involves no `TElement`.
* A transform or predicate passed to `select` / `where` is a total function.
* The run-time type of the cursor held by a `forward_iterator` (what
  `dynamic_pointer_cast` inspects) is an index `kind : K` into a family of
  cursor types `El : K → Type`, with decidable equality on `K`.
* The counter of `count` is a `std::size_t`: it is a natural number below
  `SIZE_MODULUS`, and `++num` wraps around.
* For the claims about which elements a predicate is evaluated on, the code of
  the filtering cursor is embedded a second time with a record of the
  evaluations (`skip_log`, `advance_log`, `ctor_log`, `where_log`); dropping
  the record gives back the first embedding (`skip_log_fst`). Likewise
  `sequence_equal_` is embedded a second time with a record of the positions it
  dereferences (`sequence_equal_loop_log`, `sequence_equal_loop_log_fst`).
* `sequence_equal_` follows its loop under a step budget. `sequence_equal_std`
  gives the outcome the C++ rules assign to the same code: a loop that repeats
  in an unchanged state never terminates and has no side effects, which is
  undefined behaviour (`Res.undefined`).
-/

namespace trisolaris

/-- The exception class of `linq.h`: it carries a message. -/
structure linq_exception where
  message : String
  deriving DecidableEq

/-- Outcome of running a piece of the program under a step budget. -/
inductive Res (α : Type) where
  | ok (a : α)
  | throw (e : linq_exception)
  | undefined
  | timeout
  deriving DecidableEq

namespace Res

/-- Sequencing: the first outcome that is not `ok` ends the computation. -/
def bind {α β : Type} (r : Res α) (k : α → Res β) : Res β :=
  match r with
  | ok a => k a
  | throw e => throw e
  | undefined => undefined
  | timeout => timeout

instance : Monad Res where
  pure := Res.ok
  bind := Res.bind

@[simp] theorem pure_eq {α : Type} (a : α) : (pure a : Res α) = ok a := rfl

@[simp] theorem ok_bind {α β : Type} (a : α) (k : α → Res β) : (ok a >>= k) = k a := rfl

@[simp] theorem throw_bind {α β : Type} (e : linq_exception) (k : α → Res β) :
    (throw e >>= k) = throw e := rfl

@[simp] theorem undefined_bind {α β : Type} (k : α → Res β) :
    ((undefined : Res α) >>= k) = undefined := rfl

@[simp] theorem timeout_bind {α β : Type} (k : α → Res β) :
    ((timeout : Res α) >>= k) = timeout := rfl

theorem bind_eq_ok {α β : Type} (r : Res α) (k : α → Res β) (b : β) :
    (r >>= k) = ok b ↔ ∃ a, r = ok a ∧ k a = ok b := by
  cases r <;> simp

end Res

/-- The operators that the templates of `linq.h` require of a cursor type
`TIterator`: prefix `operator++` (which may itself loop, hence the budget),
`operator*`, `operator==` and `operator!=`. -/
class Iterator (I : Type) (T : outParam Type) where
  incr : Nat → I → Res I
  deref : I → Res T
  eq : I → I → Bool
  ne : I → I → Bool

/-- The equality requirements C++ places on an iterator type: `!=` is the
negation of `==`, and `==` is reflexive and symmetric. -/
class LawfulIterator (I : Type) {T : Type} [Iterator I T] : Prop where
  ne_eq : ∀ a b : I, Iterator.ne a b = !Iterator.eq a b
  eq_self : ∀ a : I, Iterator.eq a a = true
  eq_comm : ∀ a b : I, Iterator.eq a b = Iterator.eq b a

/-! ## Standard container iterators (`std::begin(container)`, `std::end(container)`) -/

/-- Model of a standard-library container iterator such as
`std::vector<T>::iterator`: the container (identified by `buf`), its contents
and a position in it. Position `values.length` is the past-the-end position. -/
structure std_iterator (T : Type) where
  buf : Nat
  values : List T
  pos : Nat
  deriving DecidableEq

namespace std_iterator

variable {T : Type}

/-- The `++it` of a container iterator: defined only before the end. -/
def incr (it : std_iterator T) : Res (std_iterator T) :=
  if it.pos < it.values.length then .ok { it with pos := it.pos + 1 } else .undefined

/-- The `*it` of a container iterator: defined only before the end. -/
def deref (it : std_iterator T) : Res T :=
  match it.values[it.pos]? with
  | some x => .ok x
  | none => .undefined

/-- The `a == b` of container iterators: same container, same position. -/
def eq (a b : std_iterator T) : Bool :=
  a.buf == b.buf && a.pos == b.pos

instance : Iterator (std_iterator T) T where
  incr := fun _ it => it.incr
  deref := deref
  eq := eq
  ne := fun a b => !eq a b

end std_iterator

/-! ## `empty_iterator` (linq.h 141-167) -/

/-- The class `empty_iterator<T>`: it has no data members. -/
structure empty_iterator (T : Type) where
  deriving DecidableEq

instance {T : Type} : Iterator (empty_iterator T) T where
  incr := fun _ it => .ok it
  deref := fun _ => .throw ⟨"Failed to get value from an empty iterator."⟩
  eq := fun _ _ => true
  ne := fun _ _ => false

/-! ## `select_iterator` (linq.h 169-204) -/

/-- The class `select_iterator<TIterator, TFunction>`: a source cursor and the transform. -/
structure select_iterator (I : Type) (T U : Type) where
  _iterator : I
  _f : T → U

instance {I T U : Type} [Iterator I T] : Iterator (select_iterator I T U) U where
  incr := fun fuel s => do
    let it ← Iterator.incr fuel s._iterator
    pure { s with _iterator := it }
  deref := fun s => do
    let x ← Iterator.deref s._iterator
    pure (s._f x)
  eq := fun a b => Iterator.eq a._iterator b._iterator
  ne := fun a b => Iterator.ne a._iterator b._iterator

/-! ## `where_iterator` (linq.h 206-250) -/

/-- The class `where_iterator<TIterator, TFunction>`: a source cursor, the end
cursor of the source and the predicate. -/
structure where_iterator (I : Type) (T : Type) where
  _iterator : I
  _end : I
  _f : T → Bool

namespace where_iterator

variable {I T : Type} [Iterator I T]

/-- The loop `for(; _iterator != _end && !_f(*_iterator); ++_iterator);` of
`advance`; `n` bounds the number of times the loop condition is tested. -/
def skip (fuel : Nat) : Nat → where_iterator I T → Res (where_iterator I T)
  | 0, _ => .timeout
  | n + 1, w =>
    if Iterator.ne w._iterator w._end then do
      let x ← Iterator.deref w._iterator
      if !w._f x then do
        let it ← Iterator.incr fuel w._iterator
        skip fuel n { w with _iterator := it }
      else pure w
    else pure w

/-- The private `advance(bool next)`. -/
def advance (fuel : Nat) (next : Bool) (w : where_iterator I T) : Res (where_iterator I T) := do
  let w1 ← if next then do
      let it ← Iterator.incr fuel w._iterator
      pure { w with _iterator := it }
    else pure w
  skip fuel fuel w1

/-- The constructor `where_iterator(_iterator_, _end_, _f_)`: it stores the
three members and calls `advance(false)`. -/
def ctor (fuel : Nat) (_iterator_ _end_ : I) (_f_ : T → Bool) : Res (where_iterator I T) :=
  advance fuel false { _iterator := _iterator_, _end := _end_, _f := _f_ }

instance : Iterator (where_iterator I T) T where
  incr := fun fuel w => advance fuel true w
  deref := fun w => Iterator.deref w._iterator
  eq := fun a b => Iterator.eq a._iterator b._iterator
  ne := fun a b => Iterator.ne a._iterator b._iterator

end where_iterator

/-! ## `iteratorable` (linq.h 255-386) -/

/-- The class `iteratorable<TIterator>`: a pair of cursors. -/
structure iteratorable (I : Type) where
  _begin : I
  _end : I

namespace iteratorable

variable {I T : Type} [Iterator I T]

/-- The `empty()` member: `_end == _begin`. -/
def empty (s : iteratorable I) : Bool :=
  Iterator.eq s._end s._begin

/-- The typedef `TElement` (linq.h 257):
`remove_cv<remove_reference<TIterator>::type>::type`, the cursor type itself. -/
abbrev TElement (TIterator : Type) : Type := TIterator

/-- The `first()` member. Its result type is `TElement`; `convert` is the
implicit conversion from the type of `*_begin` to `TElement` applied by
`return *_begin;`. -/
def first (convert : T → TElement I) (s : iteratorable I) : Res (TElement I) :=
  if s.empty then
    .throw ⟨"failed to get the first element from an empty collection."⟩
  else do
    let x ← Iterator.deref s._begin
    pure (convert x)

/-- The loop `while(++itr != _end) res = *itr;` of `last()`; `res` is a
`TElement`. -/
def last_loop (convert : T → TElement I) (fuel : Nat) (_end : I) :
    Nat → I → TElement I → Res (TElement I)
  | 0, _, _ => .timeout
  | n + 1, itr, res => do
    let itr ← Iterator.incr fuel itr
    if Iterator.ne itr _end then do
      let x ← Iterator.deref itr
      let res := convert x
      last_loop convert fuel _end n itr res
    else pure res

/-- The `last()` member; `TElement res = *itr;` and `res = *itr;` convert the
element read to `TElement`. -/
def last (convert : T → TElement I) (fuel : Nat) (s : iteratorable I) : Res (TElement I) :=
  if s.empty then
    .throw ⟨"failed to get the last element from an empty collection."⟩
  else do
    let itr := s._begin
    let x ← Iterator.deref itr
    let res := convert x
    last_loop convert fuel s._end fuel itr res

/-- The loop `for(auto itr = _begin; itr != _end; ++itr) if(num == index) return *itr;`
of `at`. The result is `some v` when the loop body returned `v` (the element
read, converted to `TElement`) and `none` when the loop ran to its end. The
counter `num` is passed on unchanged: the source never assigns to it. -/
def at_loop (convert : T → TElement I) (fuel : Nat) (_end : I) (num index : Int) :
    Nat → I → Res (Option (TElement I))
  | 0, _ => .timeout
  | n + 1, itr =>
    if Iterator.ne itr _end then
      if num == index then do
        let v ← Iterator.deref itr
        pure (some (convert v))
      else do
        let itr ← Iterator.incr fuel itr
        at_loop convert fuel _end num index n itr
    else pure none

/-- The `at(int index)` member. -/
def at_ (convert : T → TElement I) (fuel : Nat) (s : iteratorable I) (index : Int) :
    Res (TElement I) := do
  let r ← if index ≥ 0 then at_loop convert fuel s._end 0 index fuel s._begin else pure none
  match r with
  | some v => pure v
  | none => .throw ⟨"index out of range."⟩

/-- The member `operator[](int index)`: `return at(index);`. -/
def index (convert : T → TElement I) (fuel : Nat) (s : iteratorable I) (index : Int) :
    Res (TElement I) :=
  s.at_ convert fuel index

/-- The loop `while(itr_left != _end && itr_right != itr_right_end)
if(*itr_left != *itr_right) return false;` of `sequence_equal_`. The result is
`some false` when the body returned and `none` when the loop condition failed.
Neither cursor is assigned to in the source, so both are passed on unchanged. -/
def sequence_equal_loop {I2 : Type} [Iterator I2 T] [DecidableEq T]
    (_end : I) (itr_right_end : I2) : Nat → I → I2 → Res (Option Bool)
  | 0, _, _ => .timeout
  | n + 1, itr_left, itr_right =>
    if Iterator.ne itr_left _end && Iterator.ne itr_right itr_right_end then do
      let x ← Iterator.deref itr_left
      let y ← Iterator.deref itr_right
      if x ≠ y then pure (some false)
      else sequence_equal_loop _end itr_right_end n itr_left itr_right
    else pure none

/-- The member `sequence_equal_(rhand)`, followed under a step budget. A call
that yields `timeout` for every budget is one whose loop never terminates;
the C++ rules make that undefined behaviour (see `sequence_equal_std`). -/
def sequence_equal_ {I2 : Type} [Iterator I2 T] [DecidableEq T]
    (fuel : Nat) (s : iteratorable I) (rhand : iteratorable I2) : Res Bool := do
  let itr_left := s._begin
  let itr_right := rhand._begin
  let itr_right_end := rhand._end
  let r ← sequence_equal_loop s._end itr_right_end fuel itr_left itr_right
  match r with
  | some b => pure b
  | none => pure (Iterator.eq itr_left s._end && Iterator.eq itr_right itr_right_end)

/-- The loop of a range-based `for` over the sequence (`for(auto i : s)`, that
is `for(auto itr = s.begin(); itr != s.end(); ++itr) { auto i = *itr; ... }`),
collecting the values of `i`. -/
def walk_loop (fuel : Nat) (_end : I) : Nat → I → List T → Res (List T)
  | 0, _, _ => .timeout
  | n + 1, itr, res =>
    if Iterator.ne itr _end then do
      let x ← Iterator.deref itr
      let itr ← Iterator.incr fuel itr
      walk_loop fuel _end n itr (res ++ [x])
    else pure res

/-- The elements read by a range-based `for` over the sequence, in order
(main.cpp 130-198). -/
def walk (fuel : Nat) (s : iteratorable I) : Res (List T) :=
  walk_loop fuel s._end fuel s._begin []

/-- The loop `for(auto itr = _begin; itr != _end; ++itr) res.push_back(*itr);`
of `to_vector`; `res` is a `std::vector<TElement>`, so each element read is
converted to `TElement`. -/
def to_vector_loop (convert : T → TElement I) (fuel : Nat) (_end : I) :
    Nat → I → List (TElement I) → Res (List (TElement I))
  | 0, _, _ => .timeout
  | n + 1, itr, res =>
    if Iterator.ne itr _end then do
      let x ← Iterator.deref itr
      let itr ← Iterator.incr fuel itr
      to_vector_loop convert fuel _end n itr (res ++ [convert x])
    else pure res

/-- The `to_vector()` member. -/
def to_vector (convert : T → TElement I) (fuel : Nat) (s : iteratorable I) :
    Res (List (TElement I)) :=
  to_vector_loop convert fuel s._end fuel s._begin []

/-- The `select(f)` member: both cursors are wrapped, nothing is traversed. -/
def select {U : Type} (s : iteratorable I) (f : T → U) : iteratorable (select_iterator I T U) :=
  { _begin := { _iterator := s._begin, _f := f }
    _end := { _iterator := s._end, _f := f } }

/-- The `where(f)` member: two `where_iterator`s are constructed, the first
from `(_begin, _end, f)` and the second from `(_end, _end, f)`. -/
def where_ (fuel : Nat) (s : iteratorable I) (f : T → Bool) :
    Res (iteratorable (where_iterator I T)) := do
  let b ← where_iterator.ctor fuel s._begin s._end f
  let e ← where_iterator.ctor fuel s._end s._end f
  pure { _begin := b, _end := e }

end iteratorable

/-- The entry point `from(container)`: the container's own begin and end. -/
def from_container {T : Type} (buf : Nat) (container : List T) : iteratorable (std_iterator T) :=
  { _begin := { buf := buf, values := container, pos := 0 }
    _end := { buf := buf, values := container, pos := container.length } }

/-- The entry point `from(begin, end)`: the two cursors as given. -/
def from_pair {I : Type} (_begin_ _end_ : I) : iteratorable I :=
  { _begin := _begin_, _end := _end_ }

/-! ## A cursor type that the members with `TElement` accept -/

/-- A cursor whose `operator*` returns the cursor itself, so that the type of
`*itr` is `TElement`:
`struct cursor { int i; cursor& operator++() { ++i; return *this; }
cursor operator++(int) { cursor t = *this; ++i; return t; }
cursor operator*() const { return *this; }
bool operator==(const cursor& o) const { return i == o.i; }
bool operator!=(const cursor& o) const { return i != o.i; } };` -/
structure self_cursor where
  i : Int
  deriving DecidableEq

/-- The largest value of `int` (32 bits); `++i` beyond it is undefined. -/
def INT_MAX : Int := 2147483647

instance : Iterator self_cursor self_cursor where
  incr := fun _ c => if c.i < INT_MAX then .ok { i := c.i + 1 } else .undefined
  deref := fun c => .ok c
  eq := fun a b => decide (a.i = b.i)
  ne := fun a b => decide (a.i ≠ b.i)

/-! ## The outcome of `sequence_equal_` under the C++ rules -/

/-- One more than the largest value of `std::size_t` (64 bits): `++num` on a
`std::size_t` wraps around at this value. -/
def SIZE_MODULUS : Nat := 18446744073709551616

namespace iteratorable

variable {I T : Type} [Iterator I T]

/-- The loop `for(auto itr = _begin; itr != _end; ++itr) if(*itr == element) return true;`
of `contains`, followed by its `return false;`. -/
def contains_loop [DecidableEq T] (fuel : Nat) (_end : I) (element : T) : Nat → I → Res Bool
  | 0, _ => .timeout
  | n + 1, itr =>
    if Iterator.ne itr _end then do
      let x ← Iterator.deref itr
      if x = element then pure true
      else do
        let itr ← Iterator.incr fuel itr
        contains_loop fuel _end element n itr
    else pure false

/-- The `contains(element)` member. -/
def contains [DecidableEq T] (fuel : Nat) (s : iteratorable I) (element : T) : Res Bool :=
  contains_loop fuel s._end element fuel s._begin

/-- The loop `for(auto itr = _begin; itr!= _end; ++itr) ++num;` of `count`; the
counter is a `std::size_t`. -/
def count_loop (fuel : Nat) (_end : I) : Nat → I → Nat → Res Nat
  | 0, _, _ => .timeout
  | n + 1, itr, num =>
    if Iterator.ne itr _end then do
      let num := (num + 1) % SIZE_MODULUS
      let itr ← Iterator.incr fuel itr
      count_loop fuel _end n itr num
    else pure num

/-- The `count()` member. -/
def count (fuel : Nat) (s : iteratorable I) : Res Nat :=
  count_loop fuel s._end fuel s._begin 0

/-- The `first_or_default(def)` member: `(empty()) ? def : *_begin`; the
parameter and the result are `TElement`s. -/
def first_or_default (convert : T → TElement I) (s : iteratorable I) (d : TElement I) :
    Res (TElement I) :=
  if s.empty then pure d
  else do
    let x ← Iterator.deref s._begin
    pure (convert x)

/-- The loop `for(auto itr = _begin; itr != _end; ++itr) res = *itr;` of
`last_of_default`; `res` is a `TElement`. -/
def last_of_default_loop (convert : T → TElement I) (fuel : Nat) (_end : I) :
    Nat → I → TElement I → Res (TElement I)
  | 0, _, _ => .timeout
  | n + 1, itr, res =>
    if Iterator.ne itr _end then do
      let x ← Iterator.deref itr
      let res := convert x
      let itr ← Iterator.incr fuel itr
      last_of_default_loop convert fuel _end n itr res
    else pure res

/-- The `last_of_default(def)` member. -/
def last_of_default (convert : T → TElement I) (fuel : Nat) (s : iteratorable I)
    (d : TElement I) : Res (TElement I) :=
  last_of_default_loop convert fuel s._end fuel s._begin d

end iteratorable

/-! ## `empty_iterator`: postfix increment (linq.h 152-154) -/

/-- The postfix `operator++(int)` of `empty_iterator`: `return *this;`. The
first component is the returned cursor, the second the cursor afterwards. -/
def empty_iterator.post_incr {T : Type} (a : empty_iterator T) :
    empty_iterator T × empty_iterator T :=
  (a, a)

/-! ## `storage_iterator` (linq.h 105-139) -/

/-- The class `storage_iterator<T>`: the vector kept alive by the shared
pointer `_values` and a position in it. -/
structure storage_iterator (T : Type) where
  _values : List T
  _iterator : std_iterator T
  deriving DecidableEq

instance {T : Type} : Iterator (storage_iterator T) T where
  incr := fun _ s => do
    let it ← s._iterator.incr
    pure { s with _iterator := it }
  deref := fun s => s._iterator.deref
  eq := fun a b => std_iterator.eq a._iterator b._iterator
  ne := fun a b => !std_iterator.eq a._iterator b._iterator

/-! ## `forward_iterator` (linq.h 29-102) -/

/-- The class `forward_iterator<T>`: a shared pointer to a
`forward_iterator_implement<TIterator>`, which holds a cursor of the concrete
type `TIterator`. The concrete types are indexed by `K` (their run-time type
identity, which `dynamic_pointer_cast` inspects); `El k` is the type with
identity `k`. -/
structure forward_iterator {K : Type} (El : K → Type) where
  kind : K
  _iterator : El kind

namespace forward_iterator

variable {K : Type} {El : K → Type} {T : Type} [DecidableEq K] [∀ k, Iterator (El k) T]

/-- The method `forward_iterator_implement<TIterator>::equal(rhand)` of the
object holding `_iterator`: the cast of `rhand` to the own type succeeds when
the run-time types agree, and then `impl->_iterator == _iterator` is returned. -/
def implement_equal {k : K} (_iterator : El k) (rhand : forward_iterator El) : Bool :=
  if h : rhand.kind = k then Iterator.eq (h ▸ rhand._iterator) _iterator else false

/-- The method `forward_iterator_implement<TIterator>::advance()`: a copy of the
cursor is incremented and wrapped in a new object of the same type. -/
def implement_advance (fuel : Nat) (a : forward_iterator El) : Res (forward_iterator El) := do
  let t ← Iterator.incr fuel a._iterator
  pure { kind := a.kind, _iterator := t }

instance : Iterator (forward_iterator El) T where
  incr := fun fuel a => implement_advance fuel a
  deref := fun a => Iterator.deref a._iterator
  eq := fun a rhand => implement_equal a._iterator rhand
  ne := fun a rhand => !implement_equal a._iterator rhand

end forward_iterator

/-- The constructor of `linq<T>` from an `iteratorable<TIterator>`: both cursors
are wrapped in a `forward_iterator<T>`. -/
def linq_ctor {K : Type} {El : K → Type} (k : K) (e : iteratorable (El k)) :
    iteratorable (forward_iterator El) :=
  { _begin := { kind := k, _iterator := e._begin }
    _end := { kind := k, _iterator := e._end } }

/-- Run-time type identities of the cursor types of element type `T` that do
not depend on a function type. -/
inductive cursor_kind where
  | std
  | storage
  | empty
  deriving DecidableEq

/-- The cursor type with a given identity. -/
def cursor_kind.El (T : Type) : cursor_kind → Type
  | .std => std_iterator T
  | .storage => storage_iterator T
  | .empty => empty_iterator T

instance {T : Type} : (k : cursor_kind) → Iterator (cursor_kind.El T k) T
  | .std => inferInstanceAs (Iterator (std_iterator T) T)
  | .storage => inferInstanceAs (Iterator (storage_iterator T) T)
  | .empty => inferInstanceAs (Iterator (empty_iterator T) T)

/-- The type `linq<T>`: an `iteratorable<forward_iterator<T>>`. -/
abbrev linq (T : Type) : Type := iteratorable (forward_iterator (cursor_kind.El T))

/-- The overload `from_values(std::shared_ptr<std::vector<T>> ptr)`; `buf`
identifies the vector that `ptr` refers to. -/
def from_values_ptr {T : Type} (buf : Nat) (ptr : List T) : linq T :=
  linq_ctor cursor_kind.storage
    ({ _begin := { _values := ptr, _iterator := { buf := buf, values := ptr, pos := 0 } }
       _end := { _values := ptr,
                 _iterator := { buf := buf, values := ptr, pos := ptr.length } } } :
      iteratorable (storage_iterator T))

/-- The overload `from_values(const std::initializer_list<TElement>& init_list)`:
the elements are copied into a new shared vector, identified by `buf`. -/
def from_values {T : Type} (buf : Nat) (init_list : List T) : linq T :=
  let ptr := init_list
  linq_ctor cursor_kind.storage
    ({ _begin := { _values := ptr, _iterator := { buf := buf, values := ptr, pos := 0 } }
       _end := { _values := ptr,
                 _iterator := { buf := buf, values := ptr, pos := ptr.length } } } :
      iteratorable (storage_iterator T))

/-- The entry point `from_value(element)`: a new shared vector holding the one
element is passed to `from_values`. -/
def from_value {T : Type} (buf : Nat) (element : T) : linq T :=
  from_values_ptr buf [element]

/-! ## Evaluations of the function object

The same code as `where_iterator::advance`, the two constructors and
`iteratorable::select` / `iteratorable::where`, with a record of every
evaluation `_f(*_iterator)`: the source position and the element passed. -/

namespace where_iterator

variable {I T : Type} [Iterator I T]

/-- The loop of `advance` (see `skip`), together with the evaluations of
`_f(*_iterator)` it performs, in order. -/
def skip_log (fuel : Nat) : Nat → where_iterator I T → Res (where_iterator I T × List (I × T))
  | 0, _ => .timeout
  | n + 1, w =>
    if Iterator.ne w._iterator w._end then do
      let x ← Iterator.deref w._iterator
      if !w._f x then do
        let it ← Iterator.incr fuel w._iterator
        let r ← skip_log fuel n { w with _iterator := it }
        pure (r.1, (w._iterator, x) :: r.2)
      else pure (w, [(w._iterator, x)])
    else pure (w, [])

/-- The private `advance(bool next)` (see `advance`), with its evaluations. -/
def advance_log (fuel : Nat) (next : Bool) (w : where_iterator I T) :
    Res (where_iterator I T × List (I × T)) := do
  let w1 ← if next then do
      let it ← Iterator.incr fuel w._iterator
      pure { w with _iterator := it }
    else pure w
  skip_log fuel fuel w1

/-- The constructor (see `ctor`), with its evaluations. -/
def ctor_log (fuel : Nat) (_iterator_ _end_ : I) (_f_ : T → Bool) :
    Res (where_iterator I T × List (I × T)) :=
  advance_log fuel false { _iterator := _iterator_, _end := _end_, _f := _f_ }

end where_iterator

/-- The constructor `select_iterator(_iterator_, _f_)`: it copies its two
arguments into the members and has an empty body, so it evaluates `_f` nowhere. -/
def select_iterator.ctor_log {I T U : Type} (_iterator_ : I) (_f_ : T → U) :
    select_iterator I T U × List (I × T) :=
  ({ _iterator := _iterator_, _f := _f_ }, [])

namespace iteratorable

variable {I T : Type} [Iterator I T]

/-- The `select(f)` member (see `select`), with the evaluations of `f`. -/
def select_log {U : Type} (s : iteratorable I) (f : T → U) :
    iteratorable (select_iterator I T U) × List (I × T) :=
  let b := select_iterator.ctor_log s._begin f
  let e := select_iterator.ctor_log s._end f
  ({ _begin := b.1, _end := e.1 }, b.2 ++ e.2)

/-- The `where(f)` member (see `where_`), with the evaluations of `f`. -/
def where_log (fuel : Nat) (s : iteratorable I) (f : T → Bool) :
    Res (iteratorable (where_iterator I T) × List (I × T)) := do
  let b ← where_iterator.ctor_log fuel s._begin s._end f
  let e ← where_iterator.ctor_log fuel s._end s._end f
  pure ({ _begin := b.1, _end := e.1 }, b.2 ++ e.2)

end iteratorable

/-- The state invariant of a filtering cursor: `_iterator != _end` is false, or
the predicate holds for the element at `_iterator`. -/
def where_iterator.invariant {I T : Type} [Iterator I T] (w : where_iterator I T) : Prop :=
  Iterator.ne w._iterator w._end = false ∨
    ∃ x : T, Iterator.deref w._iterator = .ok x ∧ w._f x = true

/-! ## Reads of `sequence_equal_`

The same code as `iteratorable::sequence_equal_`, with a record of every
dereference `*itr_left` and `*itr_right`: the positions read, left and right.
The record is kept beside the outcome, so that it is also there for a run that
does not finish. -/

namespace iteratorable

variable {I T : Type} [Iterator I T]

end iteratorable

/-! ## Function objects and conversions of `cursor` used as inputs

The function objects passed to `select` / `where`, and the conversion
operators of `cursor` to the cursor types of the chained sequences, which make
`to_vector()` and `first()` of those sequences well-formed. -/

/-- The function object
`struct square { cursor operator()(cursor c) const { return cursor{c.i * c.i}; } };`. -/
def square (c : self_cursor) : self_cursor := { i := c.i * c.i }

/-- The function object
`struct affine { cursor operator()(cursor c) const { return cursor{c.i * 3 + 2}; } };`. -/
def affine (c : self_cursor) : self_cursor := { i := c.i * 3 + 2 }

/-- The function object
`struct ident { cursor operator()(cursor c) const { return c; } };`. -/
def ident (c : self_cursor) : self_cursor := c

/-- The function object
`struct odd { bool operator()(cursor c) const { return c.i % 2 != 0; } };`. -/
def odd (c : self_cursor) : Bool := c.i % 2 != 0

/-- The conversion operator
`cursor::operator select_iterator<cursor, F>() const
{ return select_iterator<cursor, F>(*this, F()); }`. -/
def self_cursor.to_select (f : self_cursor → self_cursor) (c : self_cursor) :
    select_iterator self_cursor self_cursor self_cursor :=
  { _iterator := c, _f := f }

/-- The conversion operator
`cursor::operator where_iterator<cursor, P>() const
{ return where_iterator<cursor, P>(*this, *this, P()); }`: the constructor gets
the same cursor as start and end, so its loop stops at the first test. -/
def self_cursor.to_where (p : self_cursor → Bool) (c : self_cursor) :
    where_iterator self_cursor self_cursor :=
  { _iterator := c, _end := c, _f := p }

/-- The conversion operator
`cursor::operator where_iterator<select_iterator<cursor, F>, P>() const`, which
returns `where_iterator<...>(s, s, P())` for `s = select_iterator<cursor, F>(*this, F())`. -/
def self_cursor.to_select_where (f : self_cursor → self_cursor) (p : self_cursor → Bool)
    (c : self_cursor) :
    where_iterator (select_iterator self_cursor self_cursor self_cursor) self_cursor :=
  { _iterator := self_cursor.to_select f c, _end := self_cursor.to_select f c, _f := p }

/-- The conversion operator
`cursor::operator where_iterator<where_iterator<cursor, P>, P>() const`, which
returns `where_iterator<...>(w, w, P())` for `w = where_iterator<cursor, P>(*this, *this, P())`. -/
def self_cursor.to_where_where (p : self_cursor → Bool) (c : self_cursor) :
    where_iterator (where_iterator self_cursor self_cursor) self_cursor :=
  { _iterator := self_cursor.to_where p c, _end := self_cursor.to_where p c, _f := p }

/-- The conversion operator
`cursor::operator select_iterator<forward_iterator<cursor>, F>() const
{ return from_value(*this).select(F()).begin(); }`; `buf` identifies the vector
that `from_value` allocates. -/
def self_cursor.to_linq_select (buf : Nat) (f : self_cursor → self_cursor) (c : self_cursor) :
    select_iterator (forward_iterator (cursor_kind.El self_cursor)) self_cursor self_cursor :=
  ((from_value buf c).select f)._begin

/-! ## Traversals -/

/-- The cursors visited and the elements read when a cursor `c` is walked up
to the end cursor `e`: at every cursor before the last, `!=` against `e` holds,
`*` yields the listed element and `++` yields the next cursor; at the last one
`!=` against `e` fails. -/
inductive Path {I T : Type} [Iterator I T] (fuel : Nat) (e : I) : I → List T → Prop
  | stop {c : I} : Iterator.ne c e = false → Path fuel e c []
  | step {c c' : I} {x : T} {xs : List T} :
      Iterator.ne c e = true → Iterator.deref c = .ok x → Iterator.incr fuel c = .ok c' →
      Path fuel e c' xs → Path fuel e c (x :: xs)

section traversal

variable {I T : Type} [Iterator I T]

open iteratorable

theorem walk_loop_of_path {fuel : Nat} {e c : I} {l : List T} (h : Path fuel e c l) :
    ∀ (n : Nat) (acc : List T), l.length < n →
      walk_loop fuel e n c acc = .ok (acc ++ l) := by
  induction h with
  | stop hne =>
    intro n acc hn
    cases n with
    | zero => simp at hn
    | succ n => simp [walk_loop, hne]
  | step hne hd hi _ ih =>
    intro n acc hn
    cases n with
    | zero => simp at hn
    | succ n =>
      simp only [List.length_cons, Nat.add_lt_add_iff_right] at hn
      simp [walk_loop, hne, hd, hi, ih n _ hn]

theorem path_of_walk_loop {fuel : Nat} {e : I} :
    ∀ (n : Nat) (c : I) (acc r : List T), walk_loop fuel e n c acc = .ok r →
      ∃ l, r = acc ++ l ∧ Path fuel e c l ∧ l.length < n := by
  intro n
  induction n with
  | zero => intro c acc r h; simp [walk_loop] at h
  | succ n ih =>
    intro c acc r h
    unfold walk_loop at h
    by_cases hne : Iterator.ne c e = true
    · simp only [hne, if_true, Res.bind_eq_ok] at h
      obtain ⟨x, hd, c', hi, hrec⟩ := h
      obtain ⟨l, hr, hp, hl⟩ := ih c' (acc ++ [x]) r hrec
      refine ⟨x :: l, ?_, Path.step hne hd hi hp, ?_⟩
      · simp [hr]
      · simp [hl]
    · simp only [Bool.not_eq_true] at hne
      simp only [hne, Bool.false_eq_true, if_false, Res.pure_eq, Res.ok.injEq] at h
      exact ⟨[], by simp [h], Path.stop hne, by simp⟩

theorem walk_eq_ok_iff {fuel : Nat} {s : iteratorable I} {l : List T} :
    s.walk fuel = .ok l ↔ Path fuel s._end s._begin l ∧ l.length < fuel := by
  constructor
  · intro h
    obtain ⟨l', hr, hp, hl⟩ := path_of_walk_loop fuel s._begin [] l h
    simp only [List.nil_append] at hr
    subst hr
    exact ⟨hp, hl⟩
  · rintro ⟨hp, hl⟩
    simpa [walk] using walk_loop_of_path hp fuel [] hl

/-! ### Equality laws of the cursor kinds -/

instance {T : Type} : LawfulIterator (std_iterator T) where
  ne_eq := fun _ _ => rfl
  eq_self := fun a => by
    show std_iterator.eq a a = true
    simp [std_iterator.eq]
  eq_comm := fun a b => by
    show std_iterator.eq a b = std_iterator.eq b a
    simp only [std_iterator.eq]
    rw [Bool.eq_iff_iff]
    simp only [Bool.and_eq_true, beq_iff_eq]
    constructor <;> rintro ⟨h1, h2⟩ <;> exact ⟨h1.symm, h2.symm⟩

instance {T : Type} : LawfulIterator (empty_iterator T) where
  ne_eq := fun _ _ => rfl
  eq_self := fun _ => rfl
  eq_comm := fun _ _ => rfl

instance {U : Type} [LawfulIterator I] : LawfulIterator (select_iterator I T U) where
  ne_eq := fun a b => LawfulIterator.ne_eq a._iterator b._iterator
  eq_self := fun a => LawfulIterator.eq_self a._iterator
  eq_comm := fun a b => LawfulIterator.eq_comm a._iterator b._iterator

instance [LawfulIterator I] : LawfulIterator (where_iterator I T) where
  ne_eq := fun a b => LawfulIterator.ne_eq a._iterator b._iterator
  eq_self := fun a => LawfulIterator.eq_self a._iterator
  eq_comm := fun a b => LawfulIterator.eq_comm a._iterator b._iterator

theorem ne_self [LawfulIterator I] (a : I) : Iterator.ne a a = false := by
  rw [LawfulIterator.ne_eq, LawfulIterator.eq_self]
  rfl

theorem eq_of_ne [LawfulIterator I] (a b : I) : Iterator.eq a b = !Iterator.ne b a := by
  rw [LawfulIterator.ne_eq, LawfulIterator.eq_comm]
  simp

/-! ### `select` -/

theorem path_select {U : Type} {fuel : Nat} {e c : I} {l : List T} (f : T → U)
    (h : Path fuel e c l) :
    Path fuel ({ _iterator := e, _f := f } : select_iterator I T U)
      { _iterator := c, _f := f } (l.map f) := by
  induction h with
  | stop hne => exact Path.stop hne
  | step hne hd hi _ ih =>
    refine Path.step hne ?_ ?_ ih
    · show (Iterator.deref _ >>= fun x => pure (f x)) = _
      simp [hd]
    · show (Iterator.incr fuel _ >>= fun it => pure _) = _
      simp [hi]

theorem select_walk {U : Type} {fuel : Nat} {s : iteratorable I} {l : List T} (f : T → U)
    (h : s.walk fuel = .ok l) : (s.select f).walk fuel = .ok (l.map f) := by
  rw [walk_eq_ok_iff] at h ⊢
  exact ⟨path_select f h.1, by simpa using h.2⟩

/-! ### `where` -/

theorem where_skip_path {fuel : Nat} {e c : I} {l : List T} (p : T → Bool)
    (h : Path fuel e c l) (hl : l.length < fuel) :
    ∃ c' : I,
      (∀ n, l.length < n →
        where_iterator.skip fuel n { _iterator := c, _end := e, _f := p }
          = .ok { _iterator := c', _end := e, _f := p }) ∧
      Path fuel ({ _iterator := e, _end := e, _f := p } : where_iterator I T)
        { _iterator := c', _end := e, _f := p } (l.filter p) := by
  induction h with
  | @stop c hne =>
    refine ⟨c, ?_, Path.stop hne⟩
    intro n hn
    cases n with
    | zero => simp at hn
    | succ n => simp [where_iterator.skip, hne]
  | @step c c' x xs hne hd hi _ ih =>
    simp only [List.length_cons] at hl
    obtain ⟨c'', hskip, hpath⟩ := ih (by omega)
    by_cases hp : p x = true
    · refine ⟨c, ?_, ?_⟩
      · intro n hn
        cases n with
        | zero => simp at hn
        | succ n => simp [where_iterator.skip, hne, hd, hp]
      · rw [List.filter_cons_of_pos hp]
        refine Path.step hne hd ?_ hpath
        show where_iterator.advance fuel true _ = _
        simp [where_iterator.advance, hi, hskip fuel (by omega)]
    · refine ⟨c'', ?_, ?_⟩
      · intro n hn
        cases n with
        | zero => simp at hn
        | succ n =>
          simp only [List.length_cons, Nat.add_lt_add_iff_right] at hn
          simp [where_iterator.skip, hne, hd, hp, hi, hskip n hn]
      · rw [List.filter_cons_of_neg hp]
        exact hpath

theorem where_ctor_end [LawfulIterator I] {fuel : Nat} (e : I) (p : T → Bool) (hf : 0 < fuel) :
    where_iterator.ctor fuel e e p = .ok { _iterator := e, _end := e, _f := p } := by
  cases fuel with
  | zero => simp at hf
  | succ n => simp [where_iterator.ctor, where_iterator.advance, where_iterator.skip, ne_self]

theorem where_walk_exists [LawfulIterator I] {fuel : Nat} {s : iteratorable I} {l : List T}
    (p : T → Bool) (h : s.walk fuel = .ok l) :
    ∃ w, s.where_ fuel p = .ok w ∧ w.walk fuel = .ok (l.filter p) := by
  rw [walk_eq_ok_iff] at h
  obtain ⟨hp, hl⟩ := h
  obtain ⟨c', hskip, hpath⟩ := where_skip_path p hp hl
  refine ⟨{ _begin := { _iterator := c', _end := s._end, _f := p }
            _end := { _iterator := s._end, _end := s._end, _f := p } }, ?_, ?_⟩
  · have hb : where_iterator.ctor fuel s._begin s._end p
        = .ok { _iterator := c', _end := s._end, _f := p } := by
      simp [where_iterator.ctor, where_iterator.advance, hskip fuel hl]
    simp [where_, hb, where_ctor_end s._end p (by omega : 0 < fuel)]
  · rw [walk_eq_ok_iff]
    exact ⟨hpath, lt_of_le_of_lt (List.length_filter_le _ _) hl⟩

/-! ### `first` and `last` -/

theorem last_loop_of_path (convert : T → TElement I) {fuel : Nat} {e : I} :
    ∀ (xs : List T) (x : T) (c : I), Path fuel e c (x :: xs) →
      ∀ n, xs.length < n →
        last_loop convert fuel e n c (convert x)
          = .ok (convert ((x :: xs).getLast (List.cons_ne_nil x xs))) := by
  intro xs
  induction xs with
  | nil =>
    intro x c h n hn
    cases h with
    | step hne hd hi hrest =>
      cases hrest with
      | stop hne' =>
        cases n with
        | zero => simp at hn
        | succ n => simp [last_loop, hi, hne']
  | cons y ys ih =>
    intro x c h n hn
    cases h with
    | step hne hd hi hrest =>
      cases n with
      | zero => simp at hn
      | succ n =>
        simp only [List.length_cons, Nat.add_lt_add_iff_right] at hn
        have hrest' := hrest
        cases hrest with
        | step hne' hd' hi' hrest'' =>
          simp [last_loop, hi, hne', hd', ih y _ hrest' n hn]

theorem first_of_path (convert : T → TElement I) {s : iteratorable I} {fuel : Nat} {x : T}
    {xs : List T} (hne : s.empty = false) (h : Path fuel s._end s._begin (x :: xs)) :
    s.first convert = .ok (convert x) := by
  cases h with
  | step _ hd _ _ => simp [first, hne, hd]

/-! ### `to_vector` and the walk -/

theorem to_vector_loop_of_path (convert : T → TElement I) {fuel : Nat} {e c : I} {l : List T}
    (h : Path fuel e c l) :
    ∀ (n : Nat) (acc : List (TElement I)), l.length < n →
      to_vector_loop convert fuel e n c acc = .ok (acc ++ l.map convert) := by
  induction h with
  | stop hne =>
    intro n acc hn
    cases n with
    | zero => simp at hn
    | succ n => simp [to_vector_loop, hne]
  | step hne hd hi _ ih =>
    intro n acc hn
    cases n with
    | zero => simp at hn
    | succ n =>
      simp only [List.length_cons, Nat.add_lt_add_iff_right] at hn
      simp [to_vector_loop, hne, hd, hi, ih n _ hn]

theorem path_of_to_vector_loop (convert : T → TElement I) {fuel : Nat} {e : I} :
    ∀ (n : Nat) (c : I) (acc r : List (TElement I)),
      to_vector_loop convert fuel e n c acc = .ok r →
        ∃ l : List T, r = acc ++ l.map convert ∧ Path fuel e c l ∧ l.length < n := by
  intro n
  induction n with
  | zero => intro c acc r h; simp [to_vector_loop] at h
  | succ n ih =>
    intro c acc r h
    unfold to_vector_loop at h
    by_cases hne : Iterator.ne c e = true
    · simp only [hne, if_true, Res.bind_eq_ok] at h
      obtain ⟨x, hd, c', hi, hrec⟩ := h
      obtain ⟨l, hr, hp, hl⟩ := ih c' (acc ++ [convert x]) r hrec
      refine ⟨x :: l, ?_, Path.step hne hd hi hp, ?_⟩
      · simp [hr]
      · simp [hl]
    · simp only [Bool.not_eq_true] at hne
      simp only [hne, Bool.false_eq_true, if_false, Res.pure_eq, Res.ok.injEq] at h
      exact ⟨[], by simp [h], Path.stop hne, by simp⟩

/-- The member `to_vector()` returns exactly the elements of the walk, each
converted to `TElement`. -/
theorem to_vector_eq_ok_iff (convert : T → TElement I) {fuel : Nat} {s : iteratorable I}
    {r : List (TElement I)} :
    s.to_vector convert fuel = .ok r ↔ ∃ l : List T, s.walk fuel = .ok l ∧ r = l.map convert := by
  constructor
  · intro h
    obtain ⟨l, hr, hp, hl⟩ := path_of_to_vector_loop convert fuel s._begin [] r h
    exact ⟨l, walk_eq_ok_iff.mpr ⟨hp, hl⟩, by simpa using hr⟩
  · rintro ⟨l, hw, rfl⟩
    obtain ⟨hp, hl⟩ := walk_eq_ok_iff.mp hw
    simpa [to_vector] using to_vector_loop_of_path convert hp fuel [] hl

/-! ### `select` with the identity -/

theorem walk_loop_select_id {fuel : Nat} {e : I} :
    ∀ (n : Nat) (c : I) (acc : List T),
      walk_loop fuel ({ _iterator := e, _f := id } : select_iterator I T T) n
        { _iterator := c, _f := id } acc
      = walk_loop fuel e n c acc := by
  intro n
  induction n with
  | zero => intro c acc; rfl
  | succ n ih =>
    intro c acc
    have hne : Iterator.ne ({ _iterator := c, _f := id } : select_iterator I T T)
        { _iterator := e, _f := id } = Iterator.ne c e := rfl
    have hd : Iterator.deref ({ _iterator := c, _f := id } : select_iterator I T T)
        = (Iterator.deref c >>= fun x => pure (id x)) := rfl
    have hi : Iterator.incr fuel ({ _iterator := c, _f := id } : select_iterator I T T)
        = (Iterator.incr fuel c >>= fun it =>
            pure ({ _iterator := it, _f := id } : select_iterator I T T)) := rfl
    unfold walk_loop
    rw [hne, hd, hi]
    by_cases h : Iterator.ne c e = true
    · simp only [h, if_true]
      cases Iterator.deref c with
      | ok x =>
        cases Iterator.incr fuel c with
        | ok c' => simp [ih]
        | throw _ => simp
        | undefined => simp
        | timeout => simp
      | throw _ => simp
      | undefined => simp
      | timeout => simp
    · simp [h]

/-! ### `at` and `sequence_equal_` -/

theorem at_loop_ne_some (convert : T → TElement I) {fuel : Nat} {e : I} {num index : Int}
    (h : num ≠ index) :
    ∀ (n : Nat) (c : I) (v : TElement I),
      at_loop convert fuel e num index n c ≠ .ok (some v) := by
  intro n
  induction n with
  | zero => intro c v; simp [at_loop]
  | succ n ih =>
    intro c v
    unfold at_loop
    by_cases hne : Iterator.ne c e = true
    · simp only [hne, if_true, beq_iff_eq, h, if_false]
      cases hi : Iterator.incr fuel c with
      | ok c' => simpa using ih c' v
      | throw _ => simp
      | undefined => simp
      | timeout => simp
    · simp [hne]

theorem at_ne_ok (convert : T → TElement I) {fuel : Nat} {s : iteratorable I} {index : Int}
    (h : index ≠ 0) (v : TElement I) :
    s.at_ convert fuel index ≠ .ok v := by
  unfold at_
  by_cases hi : index ≥ 0
  · simp only [hi, if_true]
    cases hl : at_loop convert fuel s._end 0 index fuel s._begin with
    | ok r =>
      cases r with
      | none => simp
      | some w => exact absurd hl (at_loop_ne_some convert (Ne.symm h) fuel s._begin w)
    | throw _ => simp
    | undefined => simp
    | timeout => simp
  · simp [hi]

theorem sequence_equal_loop_timeout {I2 : Type} [Iterator I2 T] [DecidableEq T]
    (e c : I) (e2 c2 : I2) (x : T)
    (h1 : Iterator.ne c e = true) (h2 : Iterator.ne c2 e2 = true)
    (h3 : Iterator.deref c = .ok x) (h4 : Iterator.deref c2 = .ok x) :
    ∀ n : Nat, sequence_equal_loop e e2 n c c2 = .timeout := by
  intro n
  induction n with
  | zero => rfl
  | succ n ih => simp [sequence_equal_loop, h1, h2, h3, h4, ih]

end traversal

/-! ## More traversal lemmas -/

section traversal_more

variable {I T : Type} [Iterator I T]

open iteratorable

theorem empty_iff_of_path [LawfulIterator I] {s : iteratorable I} {fuel : Nat} {l : List T}
    (h : Path fuel s._end s._begin l) : s.empty = true ↔ l = [] := by
  cases h with
  | stop hne => simp [empty, eq_of_ne, hne]
  | step hne _ _ _ => simp [empty, eq_of_ne, hne]

theorem last_of_default_loop_of_path (convert : T → TElement I) {fuel : Nat} {e c : I}
    {l : List T} (h : Path fuel e c l) :
    ∀ (n : Nat) (d : TElement I), l.length < n →
      last_of_default_loop convert fuel e n c d = .ok ((l.map convert).getLast?.getD d) := by
  induction h with
  | stop hne =>
    intro n d hn
    cases n with
    | zero => simp at hn
    | succ n => simp [last_of_default_loop, hne]
  | @step c c' x xs hne hd hi _ ih =>
    intro n d hn
    cases n with
    | zero => simp at hn
    | succ n =>
      simp only [List.length_cons, Nat.add_lt_add_iff_right] at hn
      have hx : ((x :: xs).map convert).getLast?.getD d
          = (xs.map convert).getLast?.getD (convert x) := by
        cases xs with
        | nil => rfl
        | cons y ys =>
          simp only [List.map_cons]
          rw [List.getLast?_cons_cons, List.getLast?_eq_getLast _ (List.cons_ne_nil _ _)]
          rfl
      simp only [last_of_default_loop, hne, if_true, hd, Res.ok_bind, hi, ih n _ hn, hx]

theorem count_loop_of_path {fuel : Nat} {e c : I} {l : List T} (h : Path fuel e c l) :
    ∀ (n num : Nat), l.length < n → num < SIZE_MODULUS →
      count_loop fuel e n c num = .ok ((num + l.length) % SIZE_MODULUS) := by
  induction h with
  | stop hne =>
    intro n num hn hnum
    cases n with
    | zero => simp at hn
    | succ n => simp [count_loop, hne, Nat.mod_eq_of_lt hnum]
  | step hne _ hi _ ih =>
    intro n num hn _
    cases n with
    | zero => simp at hn
    | succ n =>
      simp only [List.length_cons, Nat.add_lt_add_iff_right] at hn
      have hm : (num + 1) % SIZE_MODULUS < SIZE_MODULUS :=
        Nat.mod_lt _ (by unfold SIZE_MODULUS; omega)
      have harith : ∀ k : Nat, ((num + 1) % SIZE_MODULUS + k) % SIZE_MODULUS
          = (num + (k + 1)) % SIZE_MODULUS := by
        intro k
        unfold SIZE_MODULUS
        omega
      simp [count_loop, hne, hi, ih n _ hn hm, harith]

theorem contains_loop_of_path [DecidableEq T] {fuel : Nat} {e c : I} {l : List T} (x : T)
    (h : Path fuel e c l) :
    ∀ n : Nat, l.length < n → contains_loop fuel e x n c = .ok (decide (x ∈ l)) := by
  induction h with
  | stop hne =>
    intro n hn
    cases n with
    | zero => simp at hn
    | succ n => simp [contains_loop, hne]
  | @step c c' y ys hne hd hi _ ih =>
    intro n hn
    cases n with
    | zero => simp at hn
    | succ n =>
      simp only [List.length_cons, Nat.add_lt_add_iff_right] at hn
      by_cases hxy : y = x
      · simp [contains_loop, hne, hd, hxy]
      · have hxy' : ¬ x = y := fun h => hxy h.symm
        simp [contains_loop, hne, hd, hxy, hxy', hi, ih n hn]

theorem at_loop_none_of_path (convert : T → TElement I) {fuel : Nat} {e c : I} {l : List T}
    {num index : Int} (hni : num ≠ index) (h : Path fuel e c l) :
    ∀ n : Nat, l.length < n →
      at_loop convert fuel e num index n c = (.ok none : Res (Option (TElement I))) := by
  induction h with
  | stop hne =>
    intro n hn
    cases n with
    | zero => simp at hn
    | succ n => simp [at_loop, hne]
  | step hne _ hi _ ih =>
    intro n hn
    cases n with
    | zero => simp at hn
    | succ n =>
      simp only [List.length_cons, Nat.add_lt_add_iff_right] at hn
      simp [at_loop, hne, hni, hi, ih n hn]

/-- A map between cursor types that commutes with `!=`, `*` and `++` carries
walks to walks. -/
theorem path_map {J : Type} [Iterator J T] (g : I → J) {fuel : Nat}
    (hne : ∀ a b : I, Iterator.ne (g a) (g b) = Iterator.ne a b)
    (hd : ∀ a : I, Iterator.deref (g a) = Iterator.deref a)
    (hi : ∀ a a' : I, Iterator.incr fuel a = .ok a' → Iterator.incr fuel (g a) = .ok (g a'))
    {e c : I} {l : List T} (h : Path fuel e c l) : Path fuel (g e) (g c) l := by
  induction h with
  | stop hstop => exact Path.stop (by rw [hne]; exact hstop)
  | step hn hde hin _ ih =>
    exact Path.step (by rw [hne]; exact hn) (by rw [hd]; exact hde) (hi _ _ hin) ih

theorem std_path (fuel buf : Nat) (l : List T) :
    ∀ (k i : Nat), i + k = l.length →
      Path fuel ({ buf := buf, values := l, pos := l.length } : std_iterator T)
        { buf := buf, values := l, pos := i } (l.drop i) := by
  intro k
  induction k with
  | zero =>
    intro i hi
    have : i = l.length := by omega
    subst this
    rw [List.drop_length]
    exact Path.stop (by
      show (!std_iterator.eq _ _) = false
      simp [std_iterator.eq])
  | succ k ih =>
    intro i hi
    have hlt : i < l.length := by omega
    rw [List.drop_eq_getElem_cons hlt]
    refine Path.step ?_ ?_ ?_ (ih (i + 1) (by omega))
    · show (!std_iterator.eq _ _) = true
      simp [std_iterator.eq]
      omega
    · show std_iterator.deref _ = _
      simp [std_iterator.deref, List.getElem?_eq_getElem hlt]
    · show std_iterator.incr _ = _
      simp [std_iterator.incr, hlt]

theorem from_container_walk (buf : Nat) (l : List T) (n : Nat) :
    (from_container buf l).walk (l.length + 1 + n) = .ok l := by
  rw [walk_eq_ok_iff]
  refine ⟨?_, by omega⟩
  simpa [from_container] using std_path (l.length + 1 + n) buf l l.length 0 (by omega)

end traversal_more

/-! ## Lemmas on `storage_iterator`, `forward_iterator` and the filtering cursor -/

section cursors_more

variable {I T : Type} [Iterator I T]

open iteratorable

instance : LawfulIterator (storage_iterator T) where
  ne_eq := fun _ _ => rfl
  eq_self := fun a => LawfulIterator.eq_self a._iterator
  eq_comm := fun a b => LawfulIterator.eq_comm a._iterator b._iterator

instance : (k : cursor_kind) → LawfulIterator (cursor_kind.El T k)
  | .std => inferInstanceAs (LawfulIterator (std_iterator T))
  | .storage => inferInstanceAs (LawfulIterator (storage_iterator T))
  | .empty => inferInstanceAs (LawfulIterator (empty_iterator T))

section forward

variable {K : Type} {El : K → Type} [DecidableEq K] [∀ k, Iterator (El k) T]

theorem forward_eq_same (k : K) (x y : El k) :
    Iterator.eq ({ kind := k, _iterator := x } : forward_iterator El)
      { kind := k, _iterator := y } = Iterator.eq y x := by
  show forward_iterator.implement_equal x _ = _
  simp [forward_iterator.implement_equal]

theorem forward_eq_diff (a b : forward_iterator El) (h : a.kind ≠ b.kind) :
    Iterator.eq a b = false := by
  show forward_iterator.implement_equal a._iterator b = false
  unfold forward_iterator.implement_equal
  rw [dif_neg (fun h' => h h'.symm)]

theorem forward_ne_eq (a b : forward_iterator El) :
    Iterator.ne a b = !Iterator.eq a b := rfl

instance [∀ k, LawfulIterator (El k)] : LawfulIterator (forward_iterator El) where
  ne_eq := forward_ne_eq
  eq_self := fun a => by
    obtain ⟨k, x⟩ := a
    rw [forward_eq_same]
    exact LawfulIterator.eq_self x
  eq_comm := fun a b => by
    obtain ⟨k1, x⟩ := a
    obtain ⟨k2, y⟩ := b
    by_cases h : k1 = k2
    · subst h
      rw [forward_eq_same, forward_eq_same]
      exact LawfulIterator.eq_comm y x
    · rw [forward_eq_diff _ _ h, forward_eq_diff _ _ (fun h' => h h'.symm)]

theorem path_forward [∀ k, LawfulIterator (El k)] {fuel : Nat} (k : K) {e c : El k}
    {l : List T} (h : Path fuel e c l) :
    Path fuel ({ kind := k, _iterator := e } : forward_iterator El)
      { kind := k, _iterator := c } l := by
  refine path_map (fun it => ({ kind := k, _iterator := it } : forward_iterator El))
    ?_ ?_ ?_ h
  · intro a b
    rw [forward_ne_eq, forward_eq_same, LawfulIterator.ne_eq, LawfulIterator.eq_comm]
  · intro a
    rfl
  · intro a a' ha
    show forward_iterator.implement_advance fuel _ = _
    simp [forward_iterator.implement_advance, ha]

end forward

theorem path_storage {fuel : Nat} (ptr : List T) {e c : std_iterator T} {l : List T}
    (h : Path fuel e c l) :
    Path fuel ({ _values := ptr, _iterator := e } : storage_iterator T)
      { _values := ptr, _iterator := c } l := by
  refine path_map (fun it => ({ _values := ptr, _iterator := it } : storage_iterator T))
    ?_ ?_ ?_ h
  · intro a b
    rfl
  · intro a
    rfl
  · intro a a' ha
    have ha' : a.incr = .ok a' := ha
    show (std_iterator.incr _ >>= fun it => pure _) = _
    simp [ha']

theorem from_values_ptr_path (fuel buf : Nat) (l : List T) :
    Path fuel (from_values_ptr buf l)._end (from_values_ptr buf l)._begin l := by
  have h0 : Path fuel
      ({ _values := l, _iterator := { buf := buf, values := l, pos := l.length } } :
        cursor_kind.El T cursor_kind.storage)
      { _values := l, _iterator := { buf := buf, values := l, pos := 0 } } l :=
    path_storage l (std_path fuel buf l l.length 0 (by omega))
  exact path_forward cursor_kind.storage h0

theorem from_values_ptr_walk (buf : Nat) (l : List T) (n : Nat) :
    (from_values_ptr buf l).walk (l.length + 1 + n) = .ok l := by
  rw [walk_eq_ok_iff]
  exact ⟨from_values_ptr_path _ buf l, by omega⟩

/-! ### The filtering cursor -/

theorem skip_log_fst {fuel : Nat} :
    ∀ (n : Nat) (w : where_iterator I T),
      (where_iterator.skip_log fuel n w >>= fun r => pure r.1) = where_iterator.skip fuel n w := by
  intro n
  induction n with
  | zero => intro w; rfl
  | succ n ih =>
    intro w
    unfold where_iterator.skip_log where_iterator.skip
    by_cases hne : Iterator.ne w._iterator w._end = true
    · simp only [hne, if_true]
      cases Iterator.deref w._iterator with
      | ok x =>
        by_cases hp : w._f x = true
        · simp [hp]
        · simp only [Res.ok_bind, hp, Bool.not_false, if_true]
          cases Iterator.incr fuel w._iterator with
          | ok it =>
            simp only [Res.ok_bind]
            rw [← ih]
            cases where_iterator.skip_log fuel n { w with _iterator := it } <;> simp
          | throw _ => simp
          | undefined => simp
          | timeout => simp
      | throw _ => simp
      | undefined => simp
      | timeout => simp
    · simp [hne]

theorem skip_of_skip_log {fuel n : Nat} {w w' : where_iterator I T} {log : List (I × T)}
    (h : where_iterator.skip_log fuel n w = .ok (w', log)) :
    where_iterator.skip fuel n w = .ok w' := by
  rw [← skip_log_fst, h]
  rfl

theorem skip_invariant {fuel : Nat} :
    ∀ (n : Nat) (w w' : where_iterator I T), where_iterator.skip fuel n w = .ok w' →
      w'._end = w._end ∧ w'._f = w._f ∧ w'.invariant := by
  intro n
  induction n with
  | zero => intro w w' h; simp [where_iterator.skip] at h
  | succ n ih =>
    intro w w' h
    unfold where_iterator.skip at h
    by_cases hne : Iterator.ne w._iterator w._end = true
    · simp only [hne, if_true, Res.bind_eq_ok] at h
      obtain ⟨x, hd, h⟩ := h
      by_cases hp : w._f x = true
      · simp only [hp, Bool.not_true, Bool.false_eq_true, if_false, Res.pure_eq,
          Res.ok.injEq] at h
        subst h
        exact ⟨rfl, rfl, Or.inr ⟨x, hd, hp⟩⟩
      · simp only [hp, Bool.not_false, if_true, Res.bind_eq_ok] at h
        obtain ⟨it, _, h⟩ := h
        obtain ⟨h1, h2, h3⟩ := ih { w with _iterator := it } w' h
        exact ⟨h1, h2, h3⟩
    · simp only [hne, Bool.false_eq_true, if_false, Res.pure_eq, Res.ok.injEq] at h
      subst h
      exact ⟨rfl, rfl, Or.inl (by simpa using hne)⟩

theorem where_skip_log_path {fuel : Nat} {e c : I} {l : List T} (p : T → Bool)
    (h : Path fuel e c l) :
    ∃ (c' : I) (log : List (I × T)),
      (∀ n, l.length < n →
        where_iterator.skip_log fuel n { _iterator := c, _end := e, _f := p }
          = .ok ({ _iterator := c', _end := e, _f := p }, log)) ∧
      Path fuel e c' (l.dropWhile (fun x => !p x)) ∧
      log.map Prod.snd
        = l.takeWhile (fun x => !p x) ++ (l.dropWhile (fun x => !p x)).take 1 ∧
      (∀ q ∈ log, Iterator.ne q.1 e = true ∧ Iterator.deref q.1 = .ok q.2) := by
  induction h with
  | @stop c hne =>
    refine ⟨c, [], ?_, Path.stop hne, by simp, by simp⟩
    intro n hn
    cases n with
    | zero => simp at hn
    | succ n => simp [where_iterator.skip_log, hne]
  | @step c c' x xs hne hd hi hrest ih =>
    obtain ⟨c'', log, hskip, hpath, hlog, hpos⟩ := ih
    by_cases hp : p x = true
    · refine ⟨c, [(c, x)], ?_, ?_, ?_, ?_⟩
      · intro n hn
        cases n with
        | zero => simp at hn
        | succ n => simp [where_iterator.skip_log, hne, hd, hp]
      · simpa [List.dropWhile, hp] using Path.step hne hd hi hrest
      · simp [List.dropWhile, List.takeWhile, hp]
      · intro q hq
        simp only [List.mem_singleton] at hq
        subst hq
        exact ⟨hne, hd⟩
    · refine ⟨c'', (c, x) :: log, ?_, ?_, ?_, ?_⟩
      · intro n hn
        cases n with
        | zero => simp at hn
        | succ n =>
          simp only [List.length_cons, Nat.add_lt_add_iff_right] at hn
          simp [where_iterator.skip_log, hne, hd, hp, hi, hskip n hn]
      · simpa [List.dropWhile, hp] using hpath
      · simp [List.dropWhile, List.takeWhile, hp, hlog]
      · intro q hq
        rcases List.mem_cons.mp hq with hq | hq
        · subst hq
          exact ⟨hne, hd⟩
        · exact hpos q hq

theorem takeWhile_take_one_length_le (p : T → Bool) (l : List T) :
    (l.takeWhile p ++ (l.dropWhile p).take 1).length ≤ l.length := by
  have h := congrArg List.length (List.takeWhile_append_dropWhile p l)
  simp only [List.length_append] at h
  simp only [List.length_append, List.length_take]
  omega

end cursors_more

section filtering_summary

variable {I T : Type} [Iterator I T]

open iteratorable

theorem where_skip_summary {fuel : Nat} {e c : I} {l : List T} (p : T → Bool)
    (h : Path fuel e c l) (hl : l.length < fuel) :
    ∃ (c' : I) (log : List (I × T)),
      (∀ n, l.length < n →
        where_iterator.skip_log fuel n { _iterator := c, _end := e, _f := p }
          = .ok ({ _iterator := c', _end := e, _f := p }, log)) ∧
      (∀ n, l.length < n →
        where_iterator.skip fuel n { _iterator := c, _end := e, _f := p }
          = .ok { _iterator := c', _end := e, _f := p }) ∧
      ({ _begin := c', _end := e } : iteratorable I).walk fuel
        = .ok (l.dropWhile (fun x => !p x)) ∧
      log.map Prod.snd
        = l.takeWhile (fun x => !p x) ++ (l.dropWhile (fun x => !p x)).take 1 ∧
      (∀ q ∈ log, Iterator.ne q.1 e = true ∧ Iterator.deref q.1 = .ok q.2) ∧
      log.length ≤ l.length := by
  obtain ⟨c', log, hskip, hpath, hlog, hpos⟩ := where_skip_log_path p h
  refine ⟨c', log, hskip, fun n hn => skip_of_skip_log (hskip n hn), ?_, hlog, hpos, ?_⟩
  · rw [walk_eq_ok_iff]
    exact ⟨hpath, lt_of_le_of_lt (List.dropWhile_sublist _).length_le hl⟩
  · have hlen := congrArg List.length hlog
    rw [List.length_map] at hlen
    rw [hlen]
    exact takeWhile_take_one_length_le _ l

end filtering_summary

/-! ## Lemmas on the reads of `sequence_equal_` -/

section sequence_equal_reads

variable {I T : Type} [Iterator I T] {I2 : Type} [Iterator I2 T] [DecidableEq T]

open iteratorable

end sequence_equal_reads

instance : LawfulIterator self_cursor where
  ne_eq := fun a b => by
    show decide (a.i ≠ b.i) = !decide (a.i = b.i)
    simp
  eq_self := fun a => by
    show decide (a.i = a.i) = true
    simp
  eq_comm := fun a b => by
    show decide (a.i = b.i) = decide (b.i = a.i)
    simp [eq_comm]

section sequence_equal_std_lemmas

variable {I T : Type} [Iterator I T] {I2 : Type} [Iterator I2 T] [DecidableEq T]

open iteratorable

end sequence_equal_std_lemmas

/-! ## The claims -/

section claims

open iteratorable

variable {I T : Type} [Iterator I T]

/-- C1 (fails on the code): on the sequence of `cursor`s from `cursor{10}` to
`cursor{13}`, whose `to_vector()` is `[cursor{10}, cursor{11}, cursor{12}]`,
`at(1)` does not return element 1: for every budget that lets the loop finish,
`at(1)` and `operator[](1)` throw "index out of range.", and no budget makes
`at(1)` return `cursor{11}`. -/
theorem at_one_in_range_throws :
    (from_pair (⟨10⟩ : self_cursor) ⟨13⟩).to_vector id 4 = .ok [⟨10⟩, ⟨11⟩, ⟨12⟩] ∧
    (∀ fuel, (from_pair (⟨10⟩ : self_cursor) ⟨13⟩).at_ id (fuel + 4) 1
      = .throw ⟨"index out of range."⟩) ∧
    (∀ fuel, (from_pair (⟨10⟩ : self_cursor) ⟨13⟩).index id (fuel + 4) 1
      = .throw ⟨"index out of range."⟩) ∧
    (∀ fuel, (from_pair (⟨10⟩ : self_cursor) ⟨13⟩).at_ id fuel 1 ≠ .ok ⟨11⟩) := by
  have key : ∀ fuel, (from_pair (⟨10⟩ : self_cursor) ⟨13⟩).at_ id (fuel + 4) 1
      = .throw ⟨"index out of range."⟩ := by
    intro fuel
    simp [at_, at_loop, from_pair, Iterator.ne, Iterator.incr, INT_MAX]
  exact ⟨rfl, key, key, fun fuel => at_ne_ok id (by decide) _⟩

/-- C2 (fails on the code): `sequence_equal` of two sequences that both
traverse 1, 2, 3 never returns `true`, and against 1, 2, 4 it never returns
`false`: whatever the budget, the comparison loop is still running when the
budget is used up. -/
theorem sequence_equal_never_returns :
    (from_container 0 [1, 2, 3]).walk 4 = .ok [1, 2, 3] ∧
    (from_container 1 [1, 2, 3]).walk 4 = .ok [1, 2, 3] ∧
    (from_container 2 [1, 2, 4]).walk 4 = .ok [1, 2, 4] ∧
    (∀ fuel, (from_container 0 [1, 2, 3]).sequence_equal_ fuel (from_container 1 [1, 2, 3])
      = .timeout) ∧
    (∀ fuel, (from_container 0 [1, 2, 3]).sequence_equal_ fuel (from_container 2 [1, 2, 4])
      = .timeout) := by
  refine ⟨rfl, rfl, rfl, fun fuel => ?_, fun fuel => ?_⟩
  · have h := sequence_equal_loop_timeout
      (from_container 0 [1, 2, 3])._end (from_container 0 [1, 2, 3])._begin
      (from_container 1 [1, 2, 3])._end (from_container 1 [1, 2, 3])._begin
      1 rfl rfl rfl rfl fuel
    simp [sequence_equal_, h]
  · have h := sequence_equal_loop_timeout
      (from_container 0 [1, 2, 3])._end (from_container 0 [1, 2, 3])._begin
      (from_container 2 [1, 2, 4])._end (from_container 2 [1, 2, 4])._begin
      1 rfl rfl rfl rfl fuel
    simp [sequence_equal_, h]

/-- C3 (fails on the code): whenever both sequences are non-empty and their
first elements are equal, the comparison loop of `sequence_equal_` makes no
progress: for every budget the call is still running when the budget is used
up, so it neither terminates nor returns a boolean. -/
theorem sequence_equal_diverges {I2 : Type} [Iterator I2 T] [DecidableEq T]
    (s : iteratorable I) (rhand : iteratorable I2) (x : T)
    (h1 : Iterator.ne s._begin s._end = true)
    (h2 : Iterator.ne rhand._begin rhand._end = true)
    (h3 : Iterator.deref s._begin = .ok x)
    (h4 : Iterator.deref rhand._begin = .ok x) :
    ∀ fuel, s.sequence_equal_ fuel rhand = .timeout := by
  intro fuel
  simp [sequence_equal_, sequence_equal_loop_timeout _ _ _ _ x h1 h2 h3 h4 fuel]

theorem sequence_equal_diverges_witness :
    (from_container 0 [7]).walk 2 = .ok [7] ∧
    ∀ fuel, (from_container 0 [7]).sequence_equal_ fuel (from_container 1 [7]) = .timeout :=
  ⟨rfl, sequence_equal_diverges (from_container 0 [7]) (from_container 1 [7]) 7
    rfl rfl rfl rfl⟩

/-- C4 (fails on the code): for the sequence of `cursor`s from `cursor{1}` to
`cursor{6}` and the function object `square`, `to_vector()` of the source is
the five cursors, a range-based `for` over `select(square)` reads the squares
1, 4, 9, 16, 25, but `select(square).to_vector()` is a vector of
`select_iterator`s: each square converted to a projection cursor, whose own
`*` yields the square of the square. -/
theorem select_to_vector_of_cursors :
    (from_pair (⟨1⟩ : self_cursor) ⟨6⟩).to_vector id 6
      = .ok [⟨1⟩, ⟨2⟩, ⟨3⟩, ⟨4⟩, ⟨5⟩] ∧
    ((from_pair (⟨1⟩ : self_cursor) ⟨6⟩).select square).walk 6
      = .ok [⟨1⟩, ⟨4⟩, ⟨9⟩, ⟨16⟩, ⟨25⟩] ∧
    ((from_pair (⟨1⟩ : self_cursor) ⟨6⟩).select square).to_vector
        (self_cursor.to_select square) 6
      = .ok [{ _iterator := ⟨1⟩, _f := square }, { _iterator := ⟨4⟩, _f := square },
          { _iterator := ⟨9⟩, _f := square }, { _iterator := ⟨16⟩, _f := square },
          { _iterator := ⟨25⟩, _f := square }] ∧
    [self_cursor.to_select square ⟨1⟩, self_cursor.to_select square ⟨4⟩,
        self_cursor.to_select square ⟨9⟩, self_cursor.to_select square ⟨16⟩,
        self_cursor.to_select square ⟨25⟩].map Iterator.deref
      = [.ok (⟨1⟩ : self_cursor), .ok ⟨16⟩, .ok ⟨81⟩, .ok ⟨256⟩, .ok ⟨625⟩] :=
  ⟨rfl, rfl, rfl, rfl⟩

/-- C5 (fails on the code): for the sequence of `cursor`s from `cursor{1}` to
`cursor{11}` and the predicate `odd`, a range-based `for` over `where(odd)`
reads 1, 3, 5, 7, 9, but `where(odd).to_vector()` is a vector of
`where_iterator`s (each element converted to a filtering cursor), while
`to_vector()` of the source is a vector of `cursor`s. -/
theorem where_to_vector_of_cursors :
    (from_pair (⟨1⟩ : self_cursor) ⟨11⟩).to_vector id 11
      = .ok [⟨1⟩, ⟨2⟩, ⟨3⟩, ⟨4⟩, ⟨5⟩, ⟨6⟩, ⟨7⟩, ⟨8⟩, ⟨9⟩, ⟨10⟩] ∧
    ((from_pair (⟨1⟩ : self_cursor) ⟨11⟩).where_ 11 odd >>= fun w => w.walk 11)
      = .ok [⟨1⟩, ⟨3⟩, ⟨5⟩, ⟨7⟩, ⟨9⟩] ∧
    ((from_pair (⟨1⟩ : self_cursor) ⟨11⟩).where_ 11 odd
        >>= fun w => w.to_vector (self_cursor.to_where odd) 11)
      = .ok [{ _iterator := ⟨1⟩, _end := ⟨1⟩, _f := odd },
          { _iterator := ⟨3⟩, _end := ⟨3⟩, _f := odd },
          { _iterator := ⟨5⟩, _end := ⟨5⟩, _f := odd },
          { _iterator := ⟨7⟩, _end := ⟨7⟩, _f := odd },
          { _iterator := ⟨9⟩, _end := ⟨9⟩, _f := odd }] ∧
    where_iterator.ctor 1 (⟨3⟩ : self_cursor) ⟨3⟩ odd = .ok (self_cursor.to_where odd ⟨3⟩) :=
  ⟨rfl, rfl, rfl, rfl⟩

/-- C6 (fails on the code): for the sequence of `cursor`s from `cursor{1}` to
`cursor{7}`, a range-based `for` over `select(affine).where(odd)` reads 5, 11,
17 (the odd ones among 5, 8, 11, 14, 17, 20), but
`select(affine).where(odd).to_vector()` is a vector of
`where_iterator<select_iterator<...>>`s: each of the three converted to a
filtering cursor over a projection cursor. -/
theorem select_where_to_vector_of_cursors :
    ((from_pair (⟨1⟩ : self_cursor) ⟨7⟩).select affine).walk 7
      = .ok [⟨5⟩, ⟨8⟩, ⟨11⟩, ⟨14⟩, ⟨17⟩, ⟨20⟩] ∧
    (((from_pair (⟨1⟩ : self_cursor) ⟨7⟩).select affine).where_ 7 odd >>= fun w => w.walk 7)
      = .ok [⟨5⟩, ⟨11⟩, ⟨17⟩] ∧
    (((from_pair (⟨1⟩ : self_cursor) ⟨7⟩).select affine).where_ 7 odd
        >>= fun w => w.to_vector (self_cursor.to_select_where affine odd) 7)
      = .ok [self_cursor.to_select_where affine odd ⟨5⟩,
          self_cursor.to_select_where affine odd ⟨11⟩,
          self_cursor.to_select_where affine odd ⟨17⟩] ∧
    Iterator.deref (self_cursor.to_select_where affine odd ⟨5⟩) = .ok (⟨17⟩ : self_cursor) :=
  ⟨rfl, rfl, rfl, rfl⟩

/-- C7 (fails on the code): for the sequence of `cursor`s from `cursor{1}` to
`cursor{6}`, a range-based `for` over `where(odd)` and over
`where(odd).where(odd)` both read 1, 3, 5, but `where(odd).to_vector()` is a
vector of `where_iterator<cursor, odd>`s and `where(odd).where(odd).to_vector()`
is a vector of `where_iterator<where_iterator<cursor, odd>, odd>`s. -/
theorem where_where_to_vector_of_cursors :
    ((from_pair (⟨1⟩ : self_cursor) ⟨6⟩).where_ 6 odd >>= fun w => w.walk 6)
      = .ok [⟨1⟩, ⟨3⟩, ⟨5⟩] ∧
    ((from_pair (⟨1⟩ : self_cursor) ⟨6⟩).where_ 6 odd
        >>= fun w => w.where_ 6 odd >>= fun w2 => w2.walk 6)
      = .ok [⟨1⟩, ⟨3⟩, ⟨5⟩] ∧
    ((from_pair (⟨1⟩ : self_cursor) ⟨6⟩).where_ 6 odd
        >>= fun w => w.to_vector (self_cursor.to_where odd) 6)
      = .ok [self_cursor.to_where odd ⟨1⟩, self_cursor.to_where odd ⟨3⟩,
          self_cursor.to_where odd ⟨5⟩] ∧
    ((from_pair (⟨1⟩ : self_cursor) ⟨6⟩).where_ 6 odd
        >>= fun w => w.where_ 6 odd
        >>= fun w2 => w2.to_vector (self_cursor.to_where_where odd) 6)
      = .ok [self_cursor.to_where_where odd ⟨1⟩, self_cursor.to_where_where odd ⟨3⟩,
          self_cursor.to_where_where odd ⟨5⟩] :=
  ⟨rfl, rfl, rfl, rfl⟩

/-- C8 (fails on the code): for the sequence of `cursor`s from `cursor{10}` to
`cursor{13}`, a range-based `for` over `select(ident)` reads the same three
cursors as one over the source, but `to_vector()` of the source is the vector
of the three `cursor`s while `select(ident).to_vector()` is a vector of three
`select_iterator<cursor, ident>`s. -/
theorem select_id_to_vector_of_cursors :
    (from_pair (⟨10⟩ : self_cursor) ⟨13⟩).walk 4 = .ok [⟨10⟩, ⟨11⟩, ⟨12⟩] ∧
    ((from_pair (⟨10⟩ : self_cursor) ⟨13⟩).select ident).walk 4 = .ok [⟨10⟩, ⟨11⟩, ⟨12⟩] ∧
    (from_pair (⟨10⟩ : self_cursor) ⟨13⟩).to_vector id 4 = .ok [⟨10⟩, ⟨11⟩, ⟨12⟩] ∧
    ((from_pair (⟨10⟩ : self_cursor) ⟨13⟩).select ident).to_vector
        (self_cursor.to_select ident) 4
      = .ok [{ _iterator := ⟨10⟩, _f := ident }, { _iterator := ⟨11⟩, _f := ident },
          { _iterator := ⟨12⟩, _f := ident }] :=
  ⟨rfl, rfl, rfl, rfl⟩

/-- C9: for every cursor type on which `first()` and `last()` are well-formed
(with `convert` the conversion of an element to `TElement`): when `s.empty()`
is true, `first()` throws the `linq_exception` for an empty collection and so
does `last()`, whatever its budget; neither returns a value. -/
theorem first_last_of_empty (convert : T → TElement I) (s : iteratorable I)
    (h : s.empty = true) :
    s.first convert
      = .throw ⟨"failed to get the first element from an empty collection."⟩ ∧
    ∀ fuel, s.last convert fuel
      = .throw ⟨"failed to get the last element from an empty collection."⟩ := by
  constructor
  · simp [first, h]
  · intro fuel
    simp [last, h]

theorem first_last_of_empty_witness :
    (from_pair (⟨5⟩ : self_cursor) ⟨5⟩).empty = true ∧
    (from_pair (⟨5⟩ : self_cursor) ⟨5⟩).first id
      = .throw ⟨"failed to get the first element from an empty collection."⟩ ∧
    ∀ fuel, (from_pair (⟨5⟩ : self_cursor) ⟨5⟩).last id fuel
      = .throw ⟨"failed to get the last element from an empty collection."⟩ :=
  ⟨rfl, first_last_of_empty id (from_pair (⟨5⟩ : self_cursor) ⟨5⟩) (by rfl)⟩

/-- C10: for every lawful cursor type on which the members are well-formed:
when `s.empty()` is false and `s.to_vector()` finishes within the budget and
returns `l`, then `l` is not empty, `first()` returns element 0 of `l`, and
`last()` finishes within the same budget and returns the element of `l` at
index `length - 1`. -/
theorem first_last_of_nonempty [LawfulIterator I] (convert : T → TElement I)
    (s : iteratorable I) (fuel : Nat) (l : List (TElement I)) (hne : s.empty = false)
    (h : s.to_vector convert fuel = .ok l) :
    ∃ x y : TElement I, s.first convert = .ok x ∧ l[0]? = some x ∧
      s.last convert fuel = .ok y ∧ l[l.length - 1]? = some y := by
  obtain ⟨l0, hw, rfl⟩ := (to_vector_eq_ok_iff convert).mp h
  rw [walk_eq_ok_iff] at hw
  obtain ⟨hp, hl⟩ := hw
  cases l0 with
  | nil =>
    cases hp with
    | stop hstop =>
      have : s.empty = true := by
        simp [empty, eq_of_ne, hstop]
      rw [this] at hne
      exact absurd hne (by decide)
  | cons x xs =>
    refine ⟨convert x, convert ((x :: xs).getLast (List.cons_ne_nil x xs)),
      first_of_path convert hne hp, by simp, ?_, ?_⟩
    · have hd : Iterator.deref s._begin = .ok x := by
        cases hp with
        | step _ hd _ _ => exact hd
      have hlast := last_loop_of_path convert xs x s._begin hp fuel
        (by simp only [List.length_cons] at hl; omega)
      simp [last, hne, hd, hlast]
    · rw [List.getLast_eq_getElem]
      simp only [List.length_map, List.length_cons, Nat.add_sub_cancel]
      rw [List.getElem?_eq_getElem (by simp)]
      congr 1
      exact List.getElem_map convert

theorem first_last_of_nonempty_witness :
    (from_pair (⟨10⟩ : self_cursor) ⟨13⟩).empty = false ∧
    (from_pair (⟨10⟩ : self_cursor) ⟨13⟩).to_vector id 4 = .ok [⟨10⟩, ⟨11⟩, ⟨12⟩] ∧
    ∃ x y : self_cursor, (from_pair (⟨10⟩ : self_cursor) ⟨13⟩).first id = .ok x ∧
      [(⟨10⟩ : self_cursor), ⟨11⟩, ⟨12⟩][0]? = some x ∧
      (from_pair (⟨10⟩ : self_cursor) ⟨13⟩).last id 4 = .ok y ∧
      [(⟨10⟩ : self_cursor), ⟨11⟩, ⟨12⟩][[(⟨10⟩ : self_cursor), ⟨11⟩, ⟨12⟩].length - 1]?
        = some y :=
  ⟨rfl, rfl, first_last_of_nonempty id (from_pair (⟨10⟩ : self_cursor) ⟨13⟩) 4
    [⟨10⟩, ⟨11⟩, ⟨12⟩] (by rfl) (by rfl)⟩

/-- C11: for every lawful cursor type on which the members are well-formed:
when `s.to_vector()` finishes within the budget and returns `l`, then
`s.empty()` is true exactly when `l` is empty, `first_or_default(d)` returns
the first element of `l`, or `d` when `l` is empty, and `last_of_default(d)`
finishes within the same budget and returns the last element of `l`, or `d`
when `l` is empty; neither fails. -/
theorem first_last_or_default [LawfulIterator I] (convert : T → TElement I)
    (s : iteratorable I) (fuel : Nat) (l : List (TElement I)) (d : TElement I)
    (h : s.to_vector convert fuel = .ok l) :
    (s.empty = true ↔ l = []) ∧
    s.first_or_default convert d = .ok (l.head?.getD d) ∧
    s.last_of_default convert fuel d = .ok (l.getLast?.getD d) := by
  obtain ⟨l0, hw, rfl⟩ := (to_vector_eq_ok_iff convert).mp h
  rw [walk_eq_ok_iff] at hw
  obtain ⟨hp, hl⟩ := hw
  have hempty := empty_iff_of_path hp
  refine ⟨by rw [hempty]; simp, ?_, last_of_default_loop_of_path convert hp fuel d hl⟩
  cases hp with
  | stop hne =>
    have he : s.empty = true := hempty.mpr rfl
    simp [first_or_default, he]
  | step hne hd hi hrest =>
    have he : s.empty = false := by
      cases hs : s.empty with
      | false => rfl
      | true => exact absurd (hempty.mp hs) (List.cons_ne_nil _ _)
    simp [first_or_default, he, hd]

theorem first_last_or_default_witness :
    (from_pair (⟨10⟩ : self_cursor) ⟨13⟩).to_vector id 4 = .ok [⟨10⟩, ⟨11⟩, ⟨12⟩] ∧
    (from_pair (⟨5⟩ : self_cursor) ⟨5⟩).to_vector id 4 = .ok [] ∧
    (from_pair (⟨10⟩ : self_cursor) ⟨13⟩).first_or_default id ⟨7⟩ = .ok ⟨10⟩ ∧
    (from_pair (⟨10⟩ : self_cursor) ⟨13⟩).last_of_default id 4 ⟨7⟩ = .ok ⟨12⟩ ∧
    (from_pair (⟨5⟩ : self_cursor) ⟨5⟩).first_or_default id ⟨7⟩ = .ok ⟨7⟩ ∧
    (from_pair (⟨5⟩ : self_cursor) ⟨5⟩).last_of_default id 4 ⟨7⟩ = .ok ⟨7⟩ :=
  ⟨rfl, rfl,
    (first_last_or_default id (from_pair (⟨10⟩ : self_cursor) ⟨13⟩) 4 [⟨10⟩, ⟨11⟩, ⟨12⟩] ⟨7⟩
      (by rfl)).2.1,
    (first_last_or_default id (from_pair (⟨10⟩ : self_cursor) ⟨13⟩) 4 [⟨10⟩, ⟨11⟩, ⟨12⟩] ⟨7⟩
      (by rfl)).2.2,
    (first_last_or_default id (from_pair (⟨5⟩ : self_cursor) ⟨5⟩) 4 [] ⟨7⟩ (by rfl)).2.1,
    (first_last_or_default id (from_pair (⟨5⟩ : self_cursor) ⟨5⟩) 4 [] ⟨7⟩ (by rfl)).2.2⟩

/-- C12: when walking `s` finishes within the budget and yields `l`, then
`s.count()` finishes within the same budget and returns the length of `l` as a
`std::size_t` (the length itself whenever it fits in a `std::size_t`), and
`s.select(f).count()` returns the same. -/
theorem count_eq_length {U : Type} (s : iteratorable I) (f : T → U) (fuel : Nat) (l : List T)
    (h : s.walk fuel = .ok l) :
    s.count fuel = .ok (l.length % SIZE_MODULUS) ∧
    (l.length < SIZE_MODULUS → s.count fuel = .ok l.length) ∧
    (s.select f).count fuel = s.count fuel := by
  have hs := select_walk f h
  rw [walk_eq_ok_iff] at h hs
  have h0 : (0 : Nat) < SIZE_MODULUS := by unfold SIZE_MODULUS; omega
  have hc : s.count fuel = .ok (l.length % SIZE_MODULUS) := by
    simpa [count] using count_loop_of_path h.1 fuel 0 h.2 h0
  have hcs : (s.select f).count fuel = .ok (l.length % SIZE_MODULUS) := by
    simpa [count] using count_loop_of_path hs.1 fuel 0 hs.2 h0
  refine ⟨hc, fun hlt => ?_, ?_⟩
  · rw [hc, Nat.mod_eq_of_lt hlt]
  · rw [hc, hcs]

theorem count_eq_length_witness :
    (from_container 0 [(2 : Int), 3, 4, 5, 6, 7, 8, 9, 10]).walk 10
      = .ok [2, 3, 4, 5, 6, 7, 8, 9, 10] ∧
    (from_container 0 [(2 : Int), 3, 4, 5, 6, 7, 8, 9, 10]).count 10 = .ok 9 ∧
    ((from_container 0 [(2 : Int), 3, 4, 5, 6, 7, 8, 9, 10]).select
      (fun x : Int => x * x)).count 10
      = (from_container 0 [(2 : Int), 3, 4, 5, 6, 7, 8, 9, 10]).count 10 :=
  ⟨rfl,
    (count_eq_length (from_container 0 [(2 : Int), 3, 4, 5, 6, 7, 8, 9, 10])
      (fun x : Int => x * x) 10 [2, 3, 4, 5, 6, 7, 8, 9, 10] (by rfl)).2.1 (by decide),
    (count_eq_length (from_container 0 [(2 : Int), 3, 4, 5, 6, 7, 8, 9, 10])
      (fun x : Int => x * x) 10 [2, 3, 4, 5, 6, 7, 8, 9, 10] (by rfl)).2.2⟩

/-- C13: when walking `s` finishes within the budget and yields `l`, then
`s.contains(x)` finishes within the same budget without failing and returns
true exactly when some element of `l` equals `x`; for an empty `l` it returns
false. -/
theorem contains_iff_mem [DecidableEq T] (s : iteratorable I) (x : T) (fuel : Nat)
    (l : List T) (h : s.walk fuel = .ok l) :
    s.contains fuel x = .ok (decide (∃ y ∈ l, y = x)) ∧
    (l = [] → s.contains fuel x = .ok false) := by
  rw [walk_eq_ok_iff] at h
  have hc : s.contains fuel x = .ok (decide (x ∈ l)) := contains_loop_of_path x h.1 fuel h.2
  refine ⟨?_, fun hl => ?_⟩
  · rw [hc]
    congr 1
    simp
  · rw [hc, hl]
    simp

theorem contains_iff_mem_witness :
    (from_container 0 [(10 : Int), 20, 30]).walk 4 = .ok [10, 20, 30] ∧
    (from_container 1 ([] : List Int)).contains 4 25 = .ok false ∧
    (from_container 0 [(10 : Int), 20, 30]).contains 4 20 = .ok true ∧
    (from_container 0 [(10 : Int), 20, 30]).contains 4 25 = .ok false :=
  ⟨rfl,
    (contains_iff_mem (from_container 1 ([] : List Int)) 25 4 [] (by rfl)).2 rfl,
    by simpa using
      (contains_iff_mem (from_container 0 [(10 : Int), 20, 30]) 20 4 [10, 20, 30] (by rfl)).1,
    by simpa using
      (contains_iff_mem (from_container 0 [(10 : Int), 20, 30]) 25 4 [10, 20, 30] (by rfl)).1⟩

/-- C14 (fails on the code): for `from_values` of the `cursor`s 1, 2, 3, 4 and
the function object `affine`, a range-based `for` over the erased sequence
reads the four elements and one over `select(affine)` reads 5, 8, 11, 14, but
`select(affine).to_vector()` is a vector of
`select_iterator<forward_iterator<cursor>, affine>`s; and for
`from_value(cursor{5})`, `select(affine).first()` is such a cursor too (whose
own `*` yields 53), not the element 17 that the traversal reads. -/
theorem from_values_to_vector_of_cursors :
    (from_values 0 [(⟨1⟩ : self_cursor), ⟨2⟩, ⟨3⟩, ⟨4⟩]).walk 5
      = .ok [⟨1⟩, ⟨2⟩, ⟨3⟩, ⟨4⟩] ∧
    ((from_values 0 [(⟨1⟩ : self_cursor), ⟨2⟩, ⟨3⟩, ⟨4⟩]).select affine).walk 5
      = .ok [⟨5⟩, ⟨8⟩, ⟨11⟩, ⟨14⟩] ∧
    ((from_values 0 [(⟨1⟩ : self_cursor), ⟨2⟩, ⟨3⟩, ⟨4⟩]).select affine).to_vector
        (self_cursor.to_linq_select 1 affine) 5
      = .ok [self_cursor.to_linq_select 1 affine ⟨5⟩, self_cursor.to_linq_select 1 affine ⟨8⟩,
          self_cursor.to_linq_select 1 affine ⟨11⟩,
          self_cursor.to_linq_select 1 affine ⟨14⟩] ∧
    ((from_value 0 (⟨5⟩ : self_cursor)).select affine).walk 2 = .ok [⟨17⟩] ∧
    ((from_value 0 (⟨5⟩ : self_cursor)).select affine).first
        (self_cursor.to_linq_select 1 affine)
      = .ok (self_cursor.to_linq_select 1 affine ⟨17⟩) ∧
    Iterator.deref (self_cursor.to_linq_select 1 affine ⟨17⟩) = .ok (⟨53⟩ : self_cursor) :=
  ⟨rfl, rfl, rfl, rfl, rfl, rfl⟩

/-- C15: for erased cursors `a` and `b`: when they wrap cursors of different
concrete types, `a == b` is false; when both wrap cursors of the same concrete
type, `a == b` is the `==` of the wrapped cursors (`b`'s against `a`'s, as in
the source); and `a != b` is always the negation of `a == b`. -/
theorem forward_iterator_equality {K : Type} {El : K → Type} [DecidableEq K]
    [∀ k, Iterator (El k) T] :
    (∀ a b : forward_iterator El, a.kind ≠ b.kind → Iterator.eq a b = false) ∧
    (∀ (k : K) (x y : El k),
      Iterator.eq ({ kind := k, _iterator := x } : forward_iterator El)
        { kind := k, _iterator := y } = Iterator.eq y x) ∧
    (∀ a b : forward_iterator El, Iterator.ne a b = !Iterator.eq a b) :=
  ⟨forward_eq_diff, forward_eq_same, forward_ne_eq⟩

theorem forward_iterator_equality_witness :
    Iterator.eq
        ({ kind := cursor_kind.std, _iterator := { buf := 1, values := [1, 2, 3, 4, 5, 6], pos := 0 } } :
          forward_iterator (cursor_kind.El Int))
        { kind := cursor_kind.std, _iterator := { buf := 1, values := [1, 2, 3, 4, 5, 6], pos := 0 } }
      = true ∧
    Iterator.ne
        ({ kind := cursor_kind.std, _iterator := { buf := 1, values := [1, 2, 3, 4, 5, 6], pos := 0 } } :
          forward_iterator (cursor_kind.El Int))
        { kind := cursor_kind.std,
          _iterator := { buf := 0, values := [1, 2, 3, 4, 5, 6, 7], pos := 0 } }
      = true ∧
    Iterator.eq
        ({ kind := cursor_kind.std, _iterator := { buf := 1, values := [1, 2, 3, 4, 5, 6], pos := 0 } } :
          forward_iterator (cursor_kind.El Int))
        (from_values 1 [1, 2, 3, 4, 5, 6])._begin
      = false :=
  ⟨(forward_iterator_equality.2.1 cursor_kind.std _ _).trans (by rfl),
    (forward_iterator_equality.2.2 _ _).trans (by rfl),
    forward_iterator_equality.1 _ _ (by decide)⟩

/-- C16: when walking the source range from `c` to `e` finishes within the
budget, then constructing `where_iterator(c, e, p)` returns a cursor for which
the invariant holds (its position is not different from `e`, or `p` holds for
the element at its position); when `c` is not at `e`, `++` on the filtering
cursor at `c` returns a cursor for which the invariant holds; and whenever a
`++` on any filtering cursor returns, the invariant holds for the result. -/
theorem where_iterator_invariant_holds (c e : I) (p : T → Bool) (fuel : Nat) (l : List T)
    (h : ({ _begin := c, _end := e } : iteratorable I).walk fuel = .ok l) :
    (∃ w, where_iterator.ctor fuel c e p = .ok w ∧ w._end = e ∧ w._f = p ∧ w.invariant) ∧
    (Iterator.ne c e = true →
      ∃ w', Iterator.incr fuel ({ _iterator := c, _end := e, _f := p } : where_iterator I T)
          = .ok w' ∧ w'._end = e ∧ w'._f = p ∧ w'.invariant) ∧
    (∀ (m : Nat) (w w' : where_iterator I T), Iterator.incr m w = .ok w' →
      w'._end = w._end ∧ w'._f = w._f ∧ w'.invariant) := by
  rw [walk_eq_ok_iff] at h
  obtain ⟨hp, hl⟩ := h
  simp only at hp
  refine ⟨?_, ?_, ?_⟩
  · obtain ⟨c', log, hskip, _, _, _⟩ := where_skip_log_path p hp
    have hs := skip_of_skip_log (hskip fuel hl)
    obtain ⟨h1, h2, h3⟩ := skip_invariant _ _ _ hs
    exact ⟨_, by simpa [where_iterator.ctor, where_iterator.advance] using hs, h1, h2, h3⟩
  · intro hne
    cases hp with
    | stop hstop => rw [hstop] at hne; exact absurd hne (by decide)
    | @step _ c1 x xs _ hd hi hrest =>
      simp only [List.length_cons] at hl
      obtain ⟨c', log, hskip, _, _, _⟩ := where_skip_log_path p hrest
      have hs := skip_of_skip_log (hskip fuel (by omega))
      obtain ⟨h1, h2, h3⟩ := skip_invariant _ _ _ hs
      refine ⟨_, ?_, h1, h2, h3⟩
      show where_iterator.advance fuel true _ = _
      simp [where_iterator.advance, hi, hs]
  · intro m w w' hw
    have hw' : where_iterator.advance m true w = .ok w' := hw
    simp only [where_iterator.advance, if_true, Res.bind_eq_ok] at hw'
    obtain ⟨it, _, w1, hw1, hs⟩ := hw'
    simp only [Res.pure_eq, Res.ok.injEq] at hw1
    subst hw1
    obtain ⟨h1, h2, h3⟩ := skip_invariant _ _ _ hs
    exact ⟨h1, h2, h3⟩

theorem where_iterator_invariant_holds_witness :
    (from_container 0 [(2 : Int), 4, 5, 6, 7]).walk 6 = .ok [2, 4, 5, 6, 7] ∧
    (∃ w, where_iterator.ctor 6 (from_container 0 [(2 : Int), 4, 5, 6, 7])._begin
        (from_container 0 [(2 : Int), 4, 5, 6, 7])._end (fun x : Int => x % 2 == 1) = .ok w ∧
      w._end = (from_container 0 [(2 : Int), 4, 5, 6, 7])._end ∧
      w._f = (fun x : Int => x % 2 == 1) ∧ w.invariant) ∧
    (∃ w', Iterator.incr 6
        ({ _iterator := (from_container 0 [(2 : Int), 4, 5, 6, 7])._begin,
           _end := (from_container 0 [(2 : Int), 4, 5, 6, 7])._end,
           _f := (fun x : Int => x % 2 == 1) } : where_iterator (std_iterator Int) Int)
        = .ok w' ∧
      w'._end = (from_container 0 [(2 : Int), 4, 5, 6, 7])._end ∧
      w'._f = (fun x : Int => x % 2 == 1) ∧ w'.invariant) :=
  ⟨rfl, (where_iterator_invariant_holds (from_container 0 [(2 : Int), 4, 5, 6, 7])._begin
    (from_container 0 [(2 : Int), 4, 5, 6, 7])._end (fun x : Int => x % 2 == 1) 6
    [2, 4, 5, 6, 7] (by rfl)).1,
    (where_iterator_invariant_holds (from_container 0 [(2 : Int), 4, 5, 6, 7])._begin
    (from_container 0 [(2 : Int), 4, 5, 6, 7])._end (fun x : Int => x % 2 == 1) 6
    [2, 4, 5, 6, 7] (by rfl)).2.1 (by rfl)⟩

/-- C17: `select(f)` evaluates `f` nowhere. When walking `s` finishes within
the budget and yields `l`, then constructing `s.where(p)` evaluates `p` exactly
on the elements of `l` before the first one that satisfies `p` and on that
element (on all of `l` when none satisfies `p`), and on nothing when
`s.empty()` holds; constructing the end cursor `where_iterator(_end, _end, p)`
evaluates `p` nowhere. -/
theorem select_where_laziness [LawfulIterator I] {U : Type} (s : iteratorable I) (f : T → U)
    (p : T → Bool) (fuel : Nat) (l : List T) (h : s.walk fuel = .ok l) :
    s.select_log f = (s.select f, []) ∧
    (∃ w log, s.where_log fuel p = .ok (w, log) ∧ s.where_ fuel p = .ok w ∧
      log.map Prod.snd
        = l.takeWhile (fun x => !p x) ++ (l.dropWhile (fun x => !p x)).take 1 ∧
      (s.empty = true → log = [])) ∧
    where_iterator.ctor_log fuel s._end s._end p
      = .ok ({ _iterator := s._end, _end := s._end, _f := p }, []) := by
  rw [walk_eq_ok_iff] at h
  obtain ⟨hp, hl⟩ := h
  obtain ⟨c', log, hskip, hs, _, hlog, _, _⟩ := where_skip_summary p hp hl
  have hend : where_iterator.ctor_log fuel s._end s._end p
      = .ok ({ _iterator := s._end, _end := s._end, _f := p }, []) := by
    cases fuel with
    | zero => simp at hl
    | succ n =>
      simp [where_iterator.ctor_log, where_iterator.advance_log, where_iterator.skip_log,
        ne_self]
  have hbeg : where_iterator.ctor_log fuel s._begin s._end p
      = .ok ({ _iterator := c', _end := s._end, _f := p }, log) := by
    simp [where_iterator.ctor_log, where_iterator.advance_log, hskip fuel hl]
  have hbeg' : where_iterator.ctor fuel s._begin s._end p
      = .ok { _iterator := c', _end := s._end, _f := p } := by
    simp [where_iterator.ctor, where_iterator.advance, hs fuel hl]
  refine ⟨rfl, ⟨{ _begin := { _iterator := c', _end := s._end, _f := p }
                  _end := { _iterator := s._end, _end := s._end, _f := p } },
    log, ?_, ?_, hlog, ?_⟩, hend⟩
  · simp [where_log, hbeg, hend]
  · simp [where_, hbeg', where_ctor_end s._end p (by omega : 0 < fuel)]
  · intro he
    have hnil : l = [] := (empty_iff_of_path hp).mp he
    subst hnil
    simpa using hlog

theorem select_where_laziness_witness :
    (from_container 0 [(2 : Int), 4, 5, 6, 7]).walk 6 = .ok [2, 4, 5, 6, 7] ∧
    ∃ w log, (from_container 0 [(2 : Int), 4, 5, 6, 7]).where_log 6 (fun x : Int => x % 2 == 1)
        = .ok (w, log) ∧
      (from_container 0 [(2 : Int), 4, 5, 6, 7]).where_ 6 (fun x : Int => x % 2 == 1) = .ok w ∧
      log.map Prod.snd = [2, 4, 5] ∧
      ((from_container 0 [(2 : Int), 4, 5, 6, 7]).empty = true → log = []) :=
  ⟨rfl, (select_where_laziness (from_container 0 [(2 : Int), 4, 5, 6, 7])
    (fun x : Int => x * x) (fun x : Int => x % 2 == 1) 6 [2, 4, 5, 6, 7] (by rfl)).2.1⟩

theorem where_log_of_empty :
    ∃ w log, (from_container 1 ([] : List Int)).where_log 1 (fun x : Int => x % 2 == 1)
        = .ok (w, log) ∧ log = [] :=
  ⟨_, _, rfl, rfl⟩

/-- C18: any two `empty_iterator`s are equal and not different; prefix and
postfix `++` leave the cursor unchanged (and so equal to the original);
dereferencing throws a `linq_exception`; and a sequence whose two cursors are
`empty_iterator`s has `empty()` true, `count()` 0 and, for every element type
on which `to_vector()` is well-formed (with `convert` the conversion of an
element to `TElement`), an empty `to_vector()`. -/
theorem empty_iterator_behaviour (a b : empty_iterator T)
    (convert : T → TElement (empty_iterator T)) (fuel : Nat) :
    Iterator.eq a b = true ∧ Iterator.ne a b = false ∧
    Iterator.incr fuel a = .ok a ∧ a.post_incr = (a, a) ∧
    Iterator.eq a.post_incr.2 a = true ∧
    Iterator.deref a = (.throw ⟨"Failed to get value from an empty iterator."⟩ : Res T) ∧
    ({ _begin := a, _end := b } : iteratorable (empty_iterator T)).empty = true ∧
    ({ _begin := a, _end := b } : iteratorable (empty_iterator T)).count (fuel + 1) = .ok 0 ∧
    ({ _begin := a, _end := b } : iteratorable (empty_iterator T)).to_vector convert (fuel + 1)
      = .ok [] :=
  ⟨rfl, rfl, rfl, rfl, rfl, rfl, rfl, rfl, rfl⟩

/-- C19: for every cursor type on which `at` is well-formed: when
`s.to_vector()` finishes within the budget and returns `l`, then
`s.at(index)` finishes within the same budget; it returns the first element of
`l` when `index` is 0 and `l` is not empty, and throws "index out of range." in
every other case; `operator[]` does the same. -/
theorem at_returns_only_first (convert : T → TElement I) (s : iteratorable I) (index : Int)
    (fuel : Nat) (l : List (TElement I)) (h : s.to_vector convert fuel = .ok l) :
    s.at_ convert fuel index
      = (match l.head? with
        | some x => if index = 0 then .ok x else .throw ⟨"index out of range."⟩
        | none => .throw ⟨"index out of range."⟩) ∧
    s.index convert fuel index = s.at_ convert fuel index := by
  refine ⟨?_, rfl⟩
  obtain ⟨l0, hw, rfl⟩ := (to_vector_eq_ok_iff convert).mp h
  rw [walk_eq_ok_iff] at hw
  obtain ⟨hp, hl⟩ := hw
  by_cases h0 : index = 0
  · subst h0
    cases fuel with
    | zero => simp at hl
    | succ n =>
      cases hp with
      | stop hne => simp [at_, at_loop, hne]
      | step hne hd _ _ => simp [at_, at_loop, hne, hd]
  · have hthrow : s.at_ convert fuel index = .throw ⟨"index out of range."⟩ := by
      by_cases hi : index ≥ 0
      · simp [at_, hi, at_loop_none_of_path convert (Ne.symm h0) hp fuel hl]
      · simp [at_, hi]
    rw [hthrow]
    cases (List.map convert l0).head? <;> simp [h0]

theorem at_returns_only_first_witness :
    (from_pair (⟨10⟩ : self_cursor) ⟨13⟩).to_vector id 4 = .ok [⟨10⟩, ⟨11⟩, ⟨12⟩] ∧
    (from_pair (⟨10⟩ : self_cursor) ⟨13⟩).at_ id 4 0 = .ok ⟨10⟩ ∧
    (from_pair (⟨10⟩ : self_cursor) ⟨13⟩).at_ id 4 2 = .throw ⟨"index out of range."⟩ :=
  ⟨rfl,
    (at_returns_only_first id (from_pair (⟨10⟩ : self_cursor) ⟨13⟩) 0 4 [⟨10⟩, ⟨11⟩, ⟨12⟩]
      (by rfl)).1,
    (at_returns_only_first id (from_pair (⟨10⟩ : self_cursor) ⟨13⟩) 2 4 [⟨10⟩, ⟨11⟩, ⟨12⟩]
      (by rfl)).1⟩

/-- C20: when walking the source range from `c` to `e` finishes within the
budget and yields `l`, then constructing `where_iterator(c, e, p)` returns a
cursor whose position is on that walk (walking from it to `e` yields a suffix
of `l`), every evaluation of `p` and every dereference happens at a position
different from `e`, there are at most as many evaluations as `l` has elements,
and the loop finishes within `length + 1` tests of its condition; when `l` is
not empty, `++` on the filtering cursor at `c` does the same with respect to
the rest of `l`. -/
theorem where_iterator_stays_in_range (c e : I) (p : T → Bool) (fuel : Nat) (l : List T)
    (h : ({ _begin := c, _end := e } : iteratorable I).walk fuel = .ok l) :
    (∃ w log, where_iterator.ctor_log fuel c e p = .ok (w, log) ∧
      where_iterator.ctor fuel c e p = .ok w ∧ w._end = e ∧
      ({ _begin := w._iterator, _end := e } : iteratorable I).walk fuel
        = .ok (l.dropWhile (fun x => !p x)) ∧
      (∀ q ∈ log, Iterator.ne q.1 e = true ∧ Iterator.deref q.1 = .ok q.2) ∧
      log.length ≤ l.length ∧
      (∀ n, l.length < n →
        where_iterator.skip fuel n { _iterator := c, _end := e, _f := p } = .ok w)) ∧
    (∀ (x : T) (xs : List T), l = x :: xs →
      ∃ w' log' c1, Iterator.incr fuel c = .ok c1 ∧
        where_iterator.advance_log fuel true { _iterator := c, _end := e, _f := p }
          = .ok (w', log') ∧
        Iterator.incr fuel ({ _iterator := c, _end := e, _f := p } : where_iterator I T)
          = .ok w' ∧
        w'._end = e ∧
        ({ _begin := w'._iterator, _end := e } : iteratorable I).walk fuel
          = .ok (xs.dropWhile (fun x => !p x)) ∧
        (∀ q ∈ log', Iterator.ne q.1 e = true ∧ Iterator.deref q.1 = .ok q.2) ∧
        log'.length ≤ xs.length ∧
        (∀ n, xs.length < n →
          where_iterator.skip fuel n { _iterator := c1, _end := e, _f := p } = .ok w')) := by
  rw [walk_eq_ok_iff] at h
  obtain ⟨hp, hl⟩ := h
  simp only at hp
  constructor
  · obtain ⟨c', log, hskip, hs, hvec, _, hpos, hlen⟩ := where_skip_summary p hp hl
    refine ⟨_, log, ?_, ?_, rfl, hvec, hpos, hlen, hs⟩
    · simp [where_iterator.ctor_log, where_iterator.advance_log, hskip fuel hl]
    · simp [where_iterator.ctor, where_iterator.advance, hs fuel hl]
  · intro x xs hx
    subst hx
    cases hp with
    | @step _ c1 _ _ hne hd hi hrest =>
      simp only [List.length_cons] at hl
      have hl' : xs.length < fuel := by omega
      obtain ⟨c', log, hskip, hs, hvec, _, hpos, hlen⟩ := where_skip_summary p hrest hl'
      refine ⟨_, log, c1, hi, ?_, ?_, rfl, hvec, hpos, hlen, hs⟩
      · simp [where_iterator.advance_log, hi, hskip fuel hl']
      · show where_iterator.advance fuel true _ = _
        simp [where_iterator.advance, hi, hs fuel hl']

theorem where_iterator_stays_in_range_witness :
    (from_container 0 [(2 : Int), 4, 5, 6, 7]).walk 6 = .ok [2, 4, 5, 6, 7] ∧
    ∃ w log, where_iterator.ctor_log 6 (from_container 0 [(2 : Int), 4, 5, 6, 7])._begin
        (from_container 0 [(2 : Int), 4, 5, 6, 7])._end (fun x : Int => x % 2 == 1)
        = .ok (w, log) ∧
      where_iterator.ctor 6 (from_container 0 [(2 : Int), 4, 5, 6, 7])._begin
        (from_container 0 [(2 : Int), 4, 5, 6, 7])._end (fun x : Int => x % 2 == 1) = .ok w ∧
      w._end = (from_container 0 [(2 : Int), 4, 5, 6, 7])._end ∧
      ({ _begin := w._iterator, _end := (from_container 0 [(2 : Int), 4, 5, 6, 7])._end } :
          iteratorable (std_iterator Int)).walk 6 = .ok [5, 6, 7] ∧
      (∀ q ∈ log, Iterator.ne q.1 (from_container 0 [(2 : Int), 4, 5, 6, 7])._end = true ∧
        Iterator.deref q.1 = .ok q.2) ∧
      log.length ≤ 5 ∧
      (∀ n, 5 < n →
        where_iterator.skip 6 n
          { _iterator := (from_container 0 [(2 : Int), 4, 5, 6, 7])._begin,
            _end := (from_container 0 [(2 : Int), 4, 5, 6, 7])._end,
            _f := (fun x : Int => x % 2 == 1) } = .ok w) :=
  ⟨rfl, (where_iterator_stays_in_range (from_container 0 [(2 : Int), 4, 5, 6, 7])._begin
    (from_container 0 [(2 : Int), 4, 5, 6, 7])._end (fun x : Int => x % 2 == 1) 6
    [2, 4, 5, 6, 7] (by rfl)).1⟩

theorem where_iterator_incr_in_range_example :
    ∃ w' : where_iterator (std_iterator Int) Int,
      Iterator.incr 6
        ({ _iterator := { buf := 0, values := [2, 4, 5, 6, 7], pos := 2 },
           _end := (from_container 0 [(2 : Int), 4, 5, 6, 7])._end,
           _f := (fun x : Int => x % 2 == 1) } : where_iterator (std_iterator Int) Int)
        = .ok w' ∧
      w'._iterator = { buf := 0, values := [2, 4, 5, 6, 7], pos := 4 } :=
  ⟨_, rfl, rfl⟩

end claims

end trisolaris
